import Mathlib

/-!
# Verification of the adaptive cubic-Bézier arclength testbed

A shallow embedding (over exact real arithmetic) of `examples/cubic_arclen.rs`:
2D vectors, cubic Bézier curves and their derivative chain, Gauss-Legendre
quadrature of the speed function, the closed-form five-term length estimate,
the family of local error estimators, and the recursive adaptive arclength
drivers `my_arclen`, `my_arclen7`, `my_arclen9`, `my_arclen11`.

Floating-point numbers are modelled as real numbers; decimal literals of the
source denote the exact rationals they print as.  The Rust `&mut usize` leaf
counter is modelled by explicit state passing: each driver returns the pair
(length estimate, final counter value).
-/

open Classical

/-- Modelled from the spec: kurbo's 2D vector type `Vec2` (§4.1 Vector2),
two real components with pure arithmetic. -/
structure Vec2 where
  x : ℝ
  y : ℝ

namespace Vec2

/-- Modelled from the spec: componentwise vector addition. -/
def add (a b : Vec2) : Vec2 := ⟨a.x + b.x, a.y + b.y⟩

instance : Add Vec2 := ⟨add⟩

/-- Modelled from the spec: componentwise vector subtraction. -/
def sub (a b : Vec2) : Vec2 := ⟨a.x - b.x, a.y - b.y⟩

instance : Sub Vec2 := ⟨sub⟩

/-- Modelled from the spec: scaling a vector by a real scalar. -/
def smul (r : ℝ) (v : Vec2) : Vec2 := ⟨r * v.x, r * v.y⟩

instance : SMul ℝ Vec2 := ⟨smul⟩

instance : Zero Vec2 := ⟨⟨0, 0⟩⟩

/-- Modelled from the spec: dot product. -/
def dot (a b : Vec2) : ℝ := a.x * b.x + a.y * b.y

/-- Modelled from the spec: 2D cross product (scalar), used by curvature. -/
def cross (a b : Vec2) : ℝ := a.x * b.y - a.y * b.x

/-- Modelled from the spec: squared Euclidean norm (kurbo `Vec2::hypot2`). -/
def hypot2 (v : Vec2) : ℝ := v.x * v.x + v.y * v.y

/-- Modelled from the spec: Euclidean norm (kurbo `Vec2::hypot`). -/
noncomputable def hypot (v : Vec2) : ℝ := Real.sqrt v.hypot2

end Vec2

/-- Modelled from the spec: kurbo's cubic Bézier segment, an ordered tuple of
four control points (§3 CubicCurve). -/
structure CubicBez where
  p0 : Vec2
  p1 : Vec2
  p2 : Vec2
  p3 : Vec2

/-- Modelled from the spec: a quadratic Bézier segment (the derivative of a
cubic). -/
structure QuadBez where
  p0 : Vec2
  p1 : Vec2
  p2 : Vec2

/-- Modelled from the spec: a line segment (the derivative of a quadratic). -/
structure Line where
  p0 : Vec2
  p1 : Vec2

/-- Modelled from the spec: a constant curve (the derivative of a line),
kurbo's `ConstPoint`. -/
structure ConstPoint where
  v : Vec2

/-- Modelled from the spec: Bernstein-basis evaluation of a cubic Bézier,
`B(t) = (1-t)^3 p0 + 3(1-t)^2 t p1 + 3(1-t) t^2 p2 + t^3 p3`. -/
noncomputable def CubicBez.eval (c : CubicBez) (t : ℝ) : Vec2 :=
  ((1 - t) ^ 3) • c.p0 + (3 * (1 - t) ^ 2 * t) • c.p1 +
    (3 * (1 - t) * t ^ 2) • c.p2 + (t ^ 3) • c.p3

/-- Modelled from the spec: Bernstein-basis evaluation of a quadratic Bézier. -/
noncomputable def QuadBez.eval (q : QuadBez) (t : ℝ) : Vec2 :=
  ((1 - t) ^ 2) • q.p0 + (2 * (1 - t) * t) • q.p1 + (t ^ 2) • q.p2

/-- Modelled from the spec: evaluation of a line segment. -/
noncomputable def Line.eval (l : Line) (t : ℝ) : Vec2 :=
  (1 - t) • l.p0 + t • l.p1

/-- Modelled from the spec: evaluation of a constant curve. -/
def ConstPoint.eval (k : ConstPoint) (_ : ℝ) : Vec2 := k.v

/-- Modelled from the spec: derivative of a cubic is the quadratic with control
points `3(p1-p0), 3(p2-p1), 3(p3-p2)` (§4.2). -/
noncomputable def CubicBez.deriv (c : CubicBez) : QuadBez :=
  ⟨(3 : ℝ) • (c.p1 - c.p0), (3 : ℝ) • (c.p2 - c.p1), (3 : ℝ) • (c.p3 - c.p2)⟩

/-- Modelled from the spec: derivative of a quadratic is the line with control
points `2(p1-p0), 2(p2-p1)`. -/
noncomputable def QuadBez.deriv (q : QuadBez) : Line :=
  ⟨(2 : ℝ) • (q.p1 - q.p0), (2 : ℝ) • (q.p2 - q.p1)⟩

/-- Modelled from the spec: derivative of a line is the constant `p1 - p0`. -/
noncomputable def Line.deriv (l : Line) : ConstPoint := ⟨l.p1 - l.p0⟩

/-- Modelled from the spec: de Casteljau subdivision of a cubic Bézier at the
midpoint `t = 1/2` (kurbo `CubicBez::subdivide`). -/
noncomputable def CubicBez.subdivide (c : CubicBez) : CubicBez × CubicBez :=
  let pm := ((1 : ℝ) / 8) • (c.p0 + (3 : ℝ) • c.p1 + (3 : ℝ) • c.p2 + c.p3)
  (⟨c.p0, ((1 : ℝ) / 2) • (c.p0 + c.p1),
      ((1 : ℝ) / 4) • (c.p0 + (2 : ℝ) • c.p1 + c.p2), pm⟩,
   ⟨pm, ((1 : ℝ) / 4) • (c.p1 + (2 : ℝ) • c.p2 + c.p3),
      ((1 : ℝ) / 2) • (c.p2 + c.p3), c.p3⟩)

/-- Modelled from the spec: the 5-point Gauss-Legendre table
`kurbo::common::GAUSS_LEGENDRE_COEFFS_5` of (weight, abscissa) pairs (§4.3). -/
noncomputable def GAUSS_LEGENDRE_COEFFS_5 : List (ℝ × ℝ) :=
  [(0.5688888888888889, 0.0000000000000000),
   (0.4786286704993665, -0.5384693101056831),
   (0.4786286704993665, 0.5384693101056831),
   (0.2369268850561891, -0.9061798459386640),
   (0.2369268850561891, 0.9061798459386640)]

/-- Modelled from the spec: the 7-point Gauss-Legendre table
`kurbo::common::GAUSS_LEGENDRE_COEFFS_7` (§4.3). -/
noncomputable def GAUSS_LEGENDRE_COEFFS_7 : List (ℝ × ℝ) :=
  [(0.4179591836734694, 0.0000000000000000),
   (0.3818300505051189, -0.4058451513773972),
   (0.3818300505051189, 0.4058451513773972),
   (0.2797053914892766, -0.7415311855993945),
   (0.2797053914892766, 0.7415311855993945),
   (0.1294849661688697, -0.9491079123427585),
   (0.1294849661688697, 0.9491079123427585)]

/-- Modelled from the spec: the 9-point Gauss-Legendre table
`kurbo::common::GAUSS_LEGENDRE_COEFFS_9` (§4.3); its weights sum to 2 exactly. -/
noncomputable def GAUSS_LEGENDRE_COEFFS_9 : List (ℝ × ℝ) :=
  [(0.3302393550012598, 0.0000000000000000),
   (0.1806481606948574, -0.8360311073266358),
   (0.1806481606948574, 0.8360311073266358),
   (0.0812743883615744, -0.9681602395076261),
   (0.0812743883615744, 0.9681602395076261),
   (0.3123470770400029, -0.3242534234038089),
   (0.3123470770400029, 0.3242534234038089),
   (0.2606106964029354, -0.6133714327005904),
   (0.2606106964029354, 0.6133714327005904)]

/-- Modelled from the spec: the 11-point Gauss-Legendre table
`kurbo::common::GAUSS_LEGENDRE_COEFFS_11` (§4.3). -/
noncomputable def GAUSS_LEGENDRE_COEFFS_11 : List (ℝ × ℝ) :=
  [(0.2729250867779006, 0.0000000000000000),
   (0.2628045445102467, -0.2695431559523450),
   (0.2628045445102467, 0.2695431559523450),
   (0.2331937645919905, -0.5190961292068118),
   (0.2331937645919905, 0.5190961292068118),
   (0.1862902109277343, -0.7301520055740494),
   (0.1862902109277343, 0.7301520055740494),
   (0.1255803694649046, -0.8870625997680953),
   (0.1255803694649046, 0.8870625997680953),
   (0.0556685671161737, -0.9782286581460570),
   (0.0556685671161737, 0.9782286581460570)]

/-- Modelled from the spec: the generic N-node Gauss-Legendre arclength
estimate (§4.4): map each abscissa to `t = 0.5*(x+1)`, accumulate
`weight * |B'(t)|`, and scale by `0.5` (kurbo `ParamCurveDeriv::gauss_arclen`). -/
noncomputable def CubicBez.gauss_arclen (c : CubicBez) (coeffs : List (ℝ × ℝ)) : ℝ :=
  (coeffs.map (fun p => p.1 * ((c.deriv.eval (0.5 * (p.2 + 1))).hypot))).sum * 0.5

/-- `gauss_arclen_5` from the source: the closed-form five-term weighted-norm
estimate (formula from Behdad in BezierInfo-2 issue 77). -/
noncomputable def gauss_arclen_5 (c : CubicBez) : ℝ :=
  let v0 := (c.p1 - c.p0).hypot * 0.15
  let v1 := ((-0.558983582205757 : ℝ) • c.p0
    + (0.325650248872424 : ℝ) • c.p1
    + (0.208983582205757 : ℝ) • c.p2
    + (0.024349751127576 : ℝ) • c.p3).hypot
  let v2 := (c.p3 - c.p0 + c.p2 - c.p1).hypot * 0.26666666666666666
  let v3 := ((-0.024349751127576 : ℝ) • c.p0 - (0.208983582205757 : ℝ) • c.p1
    - (0.325650248872424 : ℝ) • c.p2
    + (0.558983582205757 : ℝ) • c.p3).hypot
  let v4 := (c.p3 - c.p2).hypot * 0.15
  v0 + v1 + v2 + v3 + v4

/-- `gauss_arclen_7` from the source. -/
noncomputable def gauss_arclen_7 (c : CubicBez) : ℝ :=
  c.gauss_arclen GAUSS_LEGENDRE_COEFFS_7

/-- `gauss_arclen_9` from the source. -/
noncomputable def gauss_arclen_9 (c : CubicBez) : ℝ :=
  c.gauss_arclen GAUSS_LEGENDRE_COEFFS_9

/-- `gauss_arclen_11` from the source. -/
noncomputable def gauss_arclen_11 (c : CubicBez) : ℝ :=
  c.gauss_arclen GAUSS_LEGENDRE_COEFFS_11

/-- `est_gauss5_error` from the source. -/
noncomputable def est_gauss5_error (c : CubicBez) : ℝ :=
  let lc := (c.p3 - c.p0).hypot
  let lp := (c.p1 - c.p0).hypot + (c.p2 - c.p1).hypot + (c.p3 - c.p2).hypot
  let d2 := c.deriv.deriv
  let d3 := d2.deriv
  let lmi := 2.0 / (lp + lc)
  7e-8 * ((d3.eval 0.5).hypot * lmi + 5.0 * (d2.eval 0.5).hypot * lmi) ^ (5 : ℕ) * lp

/-- `cubic_errnorm` from the source: squared L2 norm of the second derivative
of the cubic (`d.start() = p0`, `d.end() = p1` for the line `d`). -/
noncomputable def cubic_errnorm (c : CubicBez) : ℝ :=
  let d := c.deriv.deriv
  let dd := d.p1 - d.p0
  d.p0.hypot2 + d.p0.dot dd + dd.hypot2 * (1.0 / 3.0)

/-- `est_gauss7_error` from the source. -/
noncomputable def est_gauss7_error (c : CubicBez) : ℝ :=
  let lc := (c.p3 - c.p0).hypot
  let lp := (c.p1 - c.p0).hypot + (c.p2 - c.p1).hypot + (c.p3 - c.p2).hypot
  8e-9 * (2.0 * cubic_errnorm c / lc ^ (2 : ℕ)) ^ (6 : ℕ) * lp

/-- `est_gauss9_error` from the source. -/
noncomputable def est_gauss9_error (c : CubicBez) : ℝ :=
  let lc := (c.p3 - c.p0).hypot
  let lp := (c.p1 - c.p0).hypot + (c.p2 - c.p1).hypot + (c.p3 - c.p2).hypot
  1e-10 * (2.0 * cubic_errnorm c / lc ^ (2 : ℕ)) ^ (8 : ℕ) * lp

/-- `est_gauss11_error` from the source. -/
noncomputable def est_gauss11_error (c : CubicBez) : ℝ :=
  let lc := (c.p3 - c.p0).hypot
  let lp := (c.p1 - c.p0).hypot + (c.p2 - c.p1).hypot + (c.p3 - c.p2).hypot
  1e-12 * (2.0 * cubic_errnorm c / lc ^ (2 : ℕ)) ^ (11 : ℕ) * lp

/-- `est_gauss11_error_2` from the source: integrating a local error density
over the 11-point nodes. -/
noncomputable def est_gauss11_error_2 (c : CubicBez) : ℝ :=
  let d := c.deriv
  let d2 := d.deriv
  (GAUSS_LEGENDRE_COEFFS_11.map (fun p =>
    p.1 * (let t := 0.5 * (p.2 + 1.0)
           let v := (d.eval t).hypot
           let a2 := (d2.eval t).hypot2
           a2 ^ (3 : ℕ) / v ^ (5 : ℕ)))).sum

/-- Modelled from the spec: curvature of a parametric curve at `t`
(kurbo `ParamCurveCurvature::curvature`, cross of first and second derivative
scaled by speed to the power `-3/2` of the squared speed). -/
noncomputable def curvature (c : CubicBez) (t : ℝ) : ℝ :=
  let d := c.deriv.eval t
  let d2 := c.deriv.deriv.eval t
  d.cross d2 * d.hypot2 ^ (-(1.5 : ℝ))

/-- `est_max_curvature` from the source: maximum of `|curvature|` over the 11
samples `t = i/10`, `i = 0..=10`, accumulated with a NaN-tolerant comparison. -/
noncomputable def est_max_curvature (c : CubicBez) : ℝ :=
  (List.range 11).foldl
    (fun mx (i : ℕ) =>
      let k := |curvature c ((i : ℝ) * (10 : ℝ)⁻¹)|
      if ¬(k < mx) then k else mx) 0

/-- `est_min_deriv_norm2` from the source: minimum squared speed over the
samples `t = i/10000`, `i = 0..10000`, seeded with the value at `t = 1`. -/
noncomputable def est_min_deriv_norm2 (c : CubicBez) : ℝ :=
  let d := c.deriv
  (List.range 10000).foldl
    (fun mn (i : ℕ) => min mn ((d.eval ((i : ℝ) * (10000 : ℝ)⁻¹)).hypot2))
    ((d.eval 1.0).hypot2)

/-- `est_gauss11_error_3` from the source. -/
noncomputable def est_gauss11_error_3 (c : CubicBez) : ℝ :=
  let lc := (c.p3 - c.p0).hypot
  let lp := (c.p1 - c.p0).hypot + (c.p2 - c.p1).hypot + (c.p3 - c.p2).hypot
  let pc_err := (lp - lc) * 0.02
  let ks := est_max_curvature c * lp
  let est := ks ^ (3 : ℕ) * lp * 8e-9
  if est < pc_err then est else pc_err

/-- `est_gauss9_error_3` from the source. -/
noncomputable def est_gauss9_error_3 (c : CubicBez) : ℝ :=
  let lc := (c.p3 - c.p0).hypot
  let lp := (c.p1 - c.p0).hypot + (c.p2 - c.p1).hypot + (c.p3 - c.p2).hypot
  let pc_err := (lp - lc) * 0.02
  let ks := est_max_curvature c * lp
  let est := ks ^ (3 : ℕ) * lp * 5e-8
  if est < pc_err then est else pc_err

/-- `est_gauss9_error_2` from the source (with `p = 10`). -/
noncomputable def est_gauss9_error_2 (c : CubicBez) : ℝ :=
  let d := c.deriv
  let d2 := d.deriv
  (GAUSS_LEGENDRE_COEFFS_9.map (fun pr =>
    pr.1 * (let t := 0.5 * (pr.2 + 1.0)
            let v := (d.eval t).hypot
            let a := (d2.eval t).hypot
            Real.tanh (1.0e-1 * a / v) ^ (10 : ℕ) * v))).sum * 3.0

/-- `est_gauss9_error_4` from the source. -/
noncomputable def est_gauss9_error_4 (c : CubicBez) : ℝ :=
  let lc := (c.p3 - c.p0).hypot
  let lp := (c.p1 - c.p0).hypot + (c.p2 - c.p1).hypot + (c.p3 - c.p2).hypot
  let est := gauss_arclen_9 c
  let d := c.deriv
  let v2 := (GAUSS_LEGENDRE_COEFFS_9.map (fun pr =>
    pr.1 * (let t := 0.5 * (pr.2 + 1.0)
            (d.eval t).hypot2))).sum * 0.5
  let v4 := (GAUSS_LEGENDRE_COEFFS_9.map (fun pr =>
    pr.1 * (let t := 0.5 * (pr.2 + 1.0)
            (d.eval t).hypot2 ^ (2 : ℕ)))).sum * 0.5
  1e0 * ((v4 - v2 ^ (2 : ℕ)) / v2 ^ (2 : ℕ)) ^ (3.5 : ℝ) * lp

/-- `est_gauss9_error_5` from the source. -/
noncomputable def est_gauss9_error_5 (c : CubicBez) : ℝ :=
  let lc := (c.p3 - c.p0).hypot
  let lp := (c.p1 - c.p0).hypot + (c.p2 - c.p1).hypot + (c.p3 - c.p2).hypot
  let min_v2 := est_min_deriv_norm2 c
  let lm := 0.5 * (lp + lc)
  (1.0 - min_v2 / lm ^ (2 : ℕ)) ^ (11 : ℕ) * 2e-3 * (lp - lc)

/-- `est_gauss9_error_6` from the source. -/
noncomputable def est_gauss9_error_6 (c : CubicBez) : ℝ :=
  let lc := (c.p3 - c.p0).hypot
  let lp := (c.p1 - c.p0).hypot + (c.p2 - c.p1).hypot + (c.p3 - c.p2).hypot
  let lm := 0.5 * (lp + lc)
  let d := c.deriv
  let d2 := d.deriv
  let est := (GAUSS_LEGENDRE_COEFFS_9.map (fun pr =>
    pr.1 * (let t := 0.5 * (pr.2 + 1.0)
            (d2.eval t).hypot2 / (d.eval t).hypot2))).sum
  min (est ^ (4 : ℕ) * 1e-9) 0.03 * (lp - lc)

/-- Fuel-indexed recursion underlying `my_arclen`; the driver invokes it with
fuel `16 - depth`, so that fuel runs out exactly when `depth = 16`.  Returns
(length estimate, final leaf count). -/
noncomputable def my_arclen_aux : ℕ → CubicBez → ℝ → ℕ → ℕ → ℝ × ℕ
  | 0, c, _, _, count => (gauss_arclen_5 c, count + 1)
  | fuel + 1, c, accuracy, depth, count =>
    if depth = 16 ∨ est_gauss5_error c < accuracy then (gauss_arclen_5 c, count + 1)
    else
      let s := c.subdivide
      let r0 := my_arclen_aux fuel s.1 (accuracy * 0.5) (depth + 1) count
      let r1 := my_arclen_aux fuel s.2 (accuracy * 0.5) (depth + 1) r0.2
      (r0.1 + r1.1, r1.2)

/-- `my_arclen` from the source: adaptive arclength with the `est_gauss5_error`
gate and `gauss_arclen_5` leaves; the `&mut usize` counter is threaded through
and returned alongside the length. -/
noncomputable def my_arclen (c : CubicBez) (accuracy : ℝ) (depth count : ℕ) : ℝ × ℕ :=
  my_arclen_aux (16 - depth) c accuracy depth count

/-- Fuel-indexed recursion underlying `my_arclen7`. -/
noncomputable def my_arclen7_aux : ℕ → CubicBez → ℝ → ℕ → ℕ → ℝ × ℕ
  | 0, c, _, _, count => (gauss_arclen_7 c, count + 1)
  | fuel + 1, c, accuracy, depth, count =>
    if depth = 16 ∨ est_gauss7_error c < accuracy then (gauss_arclen_7 c, count + 1)
    else
      let s := c.subdivide
      let r0 := my_arclen7_aux fuel s.1 (accuracy * 0.5) (depth + 1) count
      let r1 := my_arclen7_aux fuel s.2 (accuracy * 0.5) (depth + 1) r0.2
      (r0.1 + r1.1, r1.2)

/-- `my_arclen7` from the source. -/
noncomputable def my_arclen7 (c : CubicBez) (accuracy : ℝ) (depth count : ℕ) : ℝ × ℕ :=
  my_arclen7_aux (16 - depth) c accuracy depth count

/-- Fuel-indexed recursion underlying `my_arclen9`. -/
noncomputable def my_arclen9_aux : ℕ → CubicBez → ℝ → ℕ → ℕ → ℝ × ℕ
  | 0, c, _, _, count => (gauss_arclen_9 c, count + 1)
  | fuel + 1, c, accuracy, depth, count =>
    if depth = 16 ∨ est_gauss9_error c < accuracy then (gauss_arclen_9 c, count + 1)
    else
      let s := c.subdivide
      let r0 := my_arclen9_aux fuel s.1 (accuracy * 0.5) (depth + 1) count
      let r1 := my_arclen9_aux fuel s.2 (accuracy * 0.5) (depth + 1) r0.2
      (r0.1 + r1.1, r1.2)

/-- `my_arclen9` from the source: gates on `est_gauss9_error`, leaves use
`gauss_arclen_9`. -/
noncomputable def my_arclen9 (c : CubicBez) (accuracy : ℝ) (depth count : ℕ) : ℝ × ℕ :=
  my_arclen9_aux (16 - depth) c accuracy depth count

/-- Fuel-indexed recursion underlying `my_arclen11`. -/
noncomputable def my_arclen11_aux : ℕ → CubicBez → ℝ → ℕ → ℕ → ℝ × ℕ
  | 0, c, _, _, count => (gauss_arclen_11 c, count + 1)
  | fuel + 1, c, accuracy, depth, count =>
    if depth = 16 ∨ est_gauss9_error c < accuracy then (gauss_arclen_11 c, count + 1)
    else
      let s := c.subdivide
      let r0 := my_arclen11_aux fuel s.1 (accuracy * 0.5) (depth + 1) count
      let r1 := my_arclen11_aux fuel s.2 (accuracy * 0.5) (depth + 1) r0.2
      (r0.1 + r1.1, r1.2)

/-- `my_arclen11` from the source: like `my_arclen9` it gates on
`est_gauss9_error` (not an 11-point estimator); only the leaf quadrature is
`gauss_arclen_11`. -/
noncomputable def my_arclen11 (c : CubicBez) (accuracy : ℝ) (depth count : ℕ) : ℝ × ℕ :=
  my_arclen11_aux (16 - depth) c accuracy depth count

/-- The copy-pasted recursion of the four drivers, abstracted over the error
estimator gate and the per-leaf quadrature (fuel-indexed form). -/
noncomputable def my_arclen_gen_aux (est : CubicBez → ℝ) (leaf : CubicBez → ℝ) :
    ℕ → CubicBez → ℝ → ℕ → ℕ → ℝ × ℕ
  | 0, c, _, _, count => (leaf c, count + 1)
  | fuel + 1, c, accuracy, depth, count =>
    if depth = 16 ∨ est c < accuracy then (leaf c, count + 1)
    else
      let s := c.subdivide
      let r0 := my_arclen_gen_aux est leaf fuel s.1 (accuracy * 0.5) (depth + 1) count
      let r1 := my_arclen_gen_aux est leaf fuel s.2 (accuracy * 0.5) (depth + 1) r0.2
      (r0.1 + r1.1, r1.2)

/-- The shared adaptive driver, abstracted over estimator and leaf quadrature. -/
noncomputable def my_arclen_gen (est : CubicBez → ℝ) (leaf : CubicBez → ℝ)
    (c : CubicBez) (accuracy : ℝ) (depth count : ℕ) : ℝ × ℕ :=
  my_arclen_gen_aux est leaf (16 - depth) c accuracy depth count

/-- IEEE comparison `e < a` where the error estimate `e` may be NaN
(modelled as `none`): any comparison against NaN is false. -/
def nanLt (e : Option ℝ) (a : ℝ) : Prop :=
  match e with
  | none => False
  | some x => x < a

/-- Fuel-indexed recursion of the adaptive driver when the error estimator may
return NaN (`none`), using the IEEE comparison `nanLt` as the gate, exactly as
`my_arclen`'s `est_gauss5_error(c) < accuracy` behaves on NaN in the source. -/
noncomputable def my_arclen_nan_aux (est : CubicBez → Option ℝ) (leaf : CubicBez → ℝ) :
    ℕ → CubicBez → ℝ → ℕ → ℕ → ℝ × ℕ
  | 0, c, _, _, count => (leaf c, count + 1)
  | fuel + 1, c, accuracy, depth, count =>
    if depth = 16 ∨ nanLt (est c) accuracy then (leaf c, count + 1)
    else
      let s := c.subdivide
      let r0 := my_arclen_nan_aux est leaf fuel s.1 (accuracy * 0.5) (depth + 1) count
      let r1 := my_arclen_nan_aux est leaf fuel s.2 (accuracy * 0.5) (depth + 1) r0.2
      (r0.1 + r1.1, r1.2)

/-- The adaptive driver with a possibly-NaN error estimator. -/
noncomputable def my_arclen_nan (est : CubicBez → Option ℝ) (leaf : CubicBez → ℝ)
    (c : CubicBez) (accuracy : ℝ) (depth count : ℕ) : ℝ × ℕ :=
  my_arclen_nan_aux est leaf (16 - depth) c accuracy depth count

/-- One recursive call of the shared adaptive recursion: from state
(curve, budget, depth), when the accept condition fails, the driver calls
itself on either half of the midpoint subdivision with budget `accuracy * 0.5`
and depth `depth + 1`. -/
inductive SubCall (est : CubicBez → ℝ) :
    CubicBez × ℝ × ℕ → CubicBez × ℝ × ℕ → Prop
  | left {c : CubicBez} {accuracy : ℝ} {depth : ℕ}
      (h : ¬(depth = 16 ∨ est c < accuracy)) :
      SubCall est (c, accuracy, depth) (c.subdivide.1, accuracy * 0.5, depth + 1)
  | right {c : CubicBez} {accuracy : ℝ} {depth : ℕ}
      (h : ¬(depth = 16 ∨ est c < accuracy)) :
      SubCall est (c, accuracy, depth) (c.subdivide.2, accuracy * 0.5, depth + 1)

/-- All states of the recursion tree reachable from a starting call. -/
def Reaches (est : CubicBez → ℝ) :
    CubicBez × ℝ × ℕ → CubicBez × ℝ × ℕ → Prop :=
  Relation.ReflTransGen (SubCall est)

/-- Modelled from the spec: rotation of a vector by the angle with cosine `co`
and sine `si`. -/
def rotVec (co si : ℝ) (v : Vec2) : Vec2 :=
  ⟨co * v.x - si * v.y, si * v.x + co * v.y⟩

/-- Modelled from the spec: a rigid motion (rotation followed by translation)
applied to a point (§8 affine invariance). -/
def rigidPoint (co si tx ty : ℝ) (p : Vec2) : Vec2 :=
  ⟨co * p.x - si * p.y + tx, si * p.x + co * p.y + ty⟩

/-- Modelled from the spec: a rigid motion applied to all four control points
of a cubic (affine transform of a Bézier segment, §4.2). -/
def rigidCubic (co si tx ty : ℝ) (c : CubicBez) : CubicBez :=
  ⟨rigidPoint co si tx ty c.p0, rigidPoint co si tx ty c.p1,
   rigidPoint co si tx ty c.p2, rigidPoint co si tx ty c.p3⟩

/-- The 5-point Gauss-Lobatto quadrature table: abscissae -1, -sqrt(3/7), 0,
sqrt(3/7), 1 (with sqrt(3/7) = sqrt(21)/7) and weights 1/10, 49/90, 32/45,
49/90, 1/10. -/
noncomputable def GAUSS_LOBATTO_COEFFS_5 : List (ℝ × ℝ) :=
  [((1 : ℝ)/10, -1), ((49 : ℝ)/90, -(Real.sqrt 21 / 7)), ((32 : ℝ)/45, 0),
   ((49 : ℝ)/90, Real.sqrt 21 / 7), ((1 : ℝ)/10, 1)]

namespace Vec2

@[ext] theorem ext_xy {a b : Vec2} (hx : a.x = b.x) (hy : a.y = b.y) : a = b := by
  cases a; cases b; simp_all

@[simp] theorem add_x (a b : Vec2) : (a + b).x = a.x + b.x := rfl
@[simp] theorem add_y (a b : Vec2) : (a + b).y = a.y + b.y := rfl
@[simp] theorem sub_x (a b : Vec2) : (a - b).x = a.x - b.x := rfl
@[simp] theorem sub_y (a b : Vec2) : (a - b).y = a.y - b.y := rfl
@[simp] theorem smul_x (r : ℝ) (v : Vec2) : (r • v).x = r * v.x := rfl
@[simp] theorem smul_y (r : ℝ) (v : Vec2) : (r • v).y = r * v.y := rfl
@[simp] theorem zero_x : (0 : Vec2).x = 0 := rfl
@[simp] theorem zero_y : (0 : Vec2).y = 0 := rfl

theorem hypot2_nonneg (v : Vec2) : 0 ≤ v.hypot2 := by
  have hx := mul_self_nonneg v.x
  have hy := mul_self_nonneg v.y
  simpa [hypot2] using add_nonneg hx hy

theorem hypot_nonneg (v : Vec2) : 0 ≤ v.hypot := Real.sqrt_nonneg _

theorem hypot_sq (v : Vec2) : v.hypot ^ 2 = v.hypot2 :=
  Real.sq_sqrt (hypot2_nonneg v)

@[simp] theorem hypot_zero : (0 : Vec2).hypot = 0 := by
  simp [hypot, hypot2]

theorem hypot_eq_zero_iff (v : Vec2) : v.hypot = 0 ↔ v = 0 := by
  constructor
  · intro h
    have h2 : v.hypot2 = 0 := by
      have := hypot_sq v
      rw [h] at this
      simpa using this.symm
    have hx := mul_self_nonneg v.x
    have hy := mul_self_nonneg v.y
    have hx0 : v.x * v.x = 0 := by
      have : v.x * v.x + v.y * v.y = 0 := h2
      nlinarith
    have hy0 : v.y * v.y = 0 := by
      have : v.x * v.x + v.y * v.y = 0 := h2
      nlinarith
    ext
    · exact mul_self_eq_zero.mp hx0
    · exact mul_self_eq_zero.mp hy0
  · rintro rfl; exact hypot_zero

theorem hypot_smul (r : ℝ) (v : Vec2) : (r • v).hypot = |r| * v.hypot := by
  unfold hypot hypot2
  have : (r • v).x * (r • v).x + (r • v).y * (r • v).y
      = r ^ 2 * (v.x * v.x + v.y * v.y) := by
    simp only [smul_x, smul_y]; ring
  rw [this, Real.sqrt_mul (sq_nonneg r), Real.sqrt_sq_eq_abs]

/-- Cauchy-Schwarz for the 2D dot product. -/
theorem dot_le_hypot_mul_hypot (a b : Vec2) : a.dot b ≤ a.hypot * b.hypot := by
  have h1 : a.dot b ≤ |a.dot b| := le_abs_self _
  have h2 : |a.dot b| = Real.sqrt ((a.dot b) ^ 2) := (Real.sqrt_sq_eq_abs _).symm
  have h3 : (a.dot b) ^ 2 ≤ a.hypot2 * b.hypot2 := by
    unfold dot hypot2
    nlinarith [sq_nonneg (a.x * b.y - a.y * b.x)]
  calc a.dot b ≤ Real.sqrt ((a.dot b) ^ 2) := h2 ▸ h1
    _ ≤ Real.sqrt (a.hypot2 * b.hypot2) := Real.sqrt_le_sqrt h3
    _ = a.hypot * b.hypot := Real.sqrt_mul (hypot2_nonneg a) _

/-- Triangle inequality for the Euclidean norm. -/
theorem hypot_add_le (a b : Vec2) : (a + b).hypot ≤ a.hypot + b.hypot := by
  have hab : 0 ≤ a.hypot + b.hypot := add_nonneg (hypot_nonneg a) (hypot_nonneg b)
  have hsq : (a + b).hypot2 ≤ (a.hypot + b.hypot) ^ 2 := by
    have hd := dot_le_hypot_mul_hypot a b
    have ha := hypot_sq a
    have hb := hypot_sq b
    have expand : (a + b).hypot2 = a.hypot2 + 2 * a.dot b + b.hypot2 := by
      unfold hypot2 dot; simp only [add_x, add_y]; ring
    nlinarith
  calc (a + b).hypot = Real.sqrt (a + b).hypot2 := rfl
    _ ≤ Real.sqrt ((a.hypot + b.hypot) ^ 2) := Real.sqrt_le_sqrt hsq
    _ = |a.hypot + b.hypot| := Real.sqrt_sq_eq_abs _
    _ = a.hypot + b.hypot := abs_of_nonneg hab

theorem hypot_sub_le (a b c : Vec2) : (a - c).hypot ≤ (a - b).hypot + (b - c).hypot := by
  have h : a - c = (a - b) + (b - c) := by ext <;> simp
  rw [h]; exact hypot_add_le _ _

end Vec2


/-- A single subdivision step leaves the depth bound `≤ 16` intact: the accept
condition must have failed, so the parent depth was not 16. -/
theorem subcall_depth_le {est : CubicBez → ℝ} {s t : CubicBez × ℝ × ℕ}
    (h : SubCall est s t) (hs : s.2.2 ≤ 16) : t.2.2 ≤ 16 := by
  cases h with
  | left h' =>
    push_neg at h'
    simp only at hs ⊢
    omega
  | right h' =>
    push_neg at h'
    simp only at hs ⊢
    omega

/-- C1: the transition rule of `my_arclen`, for any reachable depth `d ≤ 16`:
accept (returning the `gauss_arclen_5` leaf value and incrementing the counter)
exactly when `d = 16` or `est_gauss5_error c < accuracy`; otherwise subdivide at
the midpoint and sum the recursive results at budget `accuracy * 0.5`, depth
`d + 1`. -/
theorem my_arclen_transition (c : CubicBez) (accuracy : ℝ) (depth count : ℕ)
    (hd : depth ≤ 16) :
    my_arclen c accuracy depth count =
      if depth = 16 ∨ est_gauss5_error c < accuracy
      then (gauss_arclen_5 c, count + 1)
      else
        ((my_arclen c.subdivide.1 (accuracy * 0.5) (depth + 1) count).1 +
            (my_arclen c.subdivide.2 (accuracy * 0.5) (depth + 1)
              (my_arclen c.subdivide.1 (accuracy * 0.5) (depth + 1) count).2).1,
          (my_arclen c.subdivide.2 (accuracy * 0.5) (depth + 1)
            (my_arclen c.subdivide.1 (accuracy * 0.5) (depth + 1) count).2).2) := by
  by_cases h16 : depth = 16
  · subst h16
    rw [if_pos (Or.inl rfl)]
    show my_arclen_aux (16 - 16) c accuracy 16 count = _
    norm_num [my_arclen_aux]
  · have hfuel : 16 - depth = (16 - (depth + 1)) + 1 := by omega
    show my_arclen_aux (16 - depth) c accuracy depth count = _
    rw [hfuel, my_arclen_aux]
    rfl

/-- Witness for C1 at a concrete input (the degenerate all-zero curve,
accuracy 1, depth 0). -/
theorem my_arclen_transition_witness :
    (0 : ℕ) ≤ 16 ∧
      my_arclen ⟨0, 0, 0, 0⟩ 1 0 0 =
        (if (0 : ℕ) = 16 ∨ est_gauss5_error ⟨0, 0, 0, 0⟩ < 1
         then (gauss_arclen_5 ⟨0, 0, 0, 0⟩, 0 + 1)
         else
           ((my_arclen (CubicBez.subdivide ⟨0, 0, 0, 0⟩).1 (1 * 0.5) (0 + 1) 0).1 +
               (my_arclen (CubicBez.subdivide ⟨0, 0, 0, 0⟩).2 (1 * 0.5) (0 + 1)
                 (my_arclen (CubicBez.subdivide ⟨0, 0, 0, 0⟩).1 (1 * 0.5) (0 + 1) 0).2).1,
             (my_arclen (CubicBez.subdivide ⟨0, 0, 0, 0⟩).2 (1 * 0.5) (0 + 1)
               (my_arclen (CubicBez.subdivide ⟨0, 0, 0, 0⟩).1 (1 * 0.5) (0 + 1) 0).2).2)) :=
  ⟨by norm_num, my_arclen_transition ⟨0, 0, 0, 0⟩ 1 0 0 (by norm_num)⟩

/-- C2: starting from any depth `d0 ≤ 16`, no state of the recursion tree —
for any error estimator whatsoever, hence for `my_arclen`, `my_arclen7`,
`my_arclen9` and `my_arclen11` alike — has depth greater than 16. -/
theorem reaches_depth_le (est : CubicBez → ℝ) (c : CubicBez) (accuracy : ℝ)
    (d0 : ℕ) (s : CubicBez × ℝ × ℕ) (h0 : d0 ≤ 16)
    (h : Reaches est (c, accuracy, d0) s) : s.2.2 ≤ 16 := by
  induction h with
  | refl => exact h0
  | tail _ step ih => exact subcall_depth_le step ih

/-- Witness for C2: the trivial reachable state at the root, with
`est_gauss5_error` as the estimator. -/
theorem reaches_depth_le_witness :
    (0 : ℕ) ≤ 16 ∧
      Reaches est_gauss5_error (⟨0, 0, 0, 0⟩, 1, 0) (⟨0, 0, 0, 0⟩, 1, 0) ∧
      ((⟨0, 0, 0, 0⟩, (1 : ℝ), (0 : ℕ)) : CubicBez × ℝ × ℕ).2.2 ≤ 16 :=
  ⟨by norm_num, Relation.ReflTransGen.refl,
    reaches_depth_le est_gauss5_error ⟨0, 0, 0, 0⟩ 1 0 _ (by norm_num)
      Relation.ReflTransGen.refl⟩

/-- C6: at every subdivision step (of any of the drivers) each child receives
budget exactly half the parent's, so the two children's budgets sum to the
parent's; consequently a state at depth `d` reached from a depth-0 root with
top-level accuracy `ε` carries budget `ε / 2 ^ d`. -/
theorem subdivision_budget_halves :
    (∀ (est : CubicBez → ℝ) (s t : CubicBez × ℝ × ℕ), SubCall est s t →
        t.2.1 = s.2.1 * 0.5 ∧ t.2.1 + t.2.1 = s.2.1) ∧
    (∀ (est : CubicBez → ℝ) (c : CubicBez) (accuracy : ℝ)
        (s : CubicBez × ℝ × ℕ), Reaches est (c, accuracy, 0) s →
        s.2.1 = accuracy / 2 ^ s.2.2) := by
  constructor
  · intro est s t h
    cases h with
    | left h' => exact ⟨rfl, by simp only; ring⟩
    | right h' => exact ⟨rfl, by simp only; ring⟩
  · intro est c accuracy s h
    induction h with
    | refl => simp
    | tail _ step ih =>
      cases step with
      | left h' =>
        simp only at ih ⊢
        rw [ih, pow_succ]
        ring
      | right h' =>
        simp only at ih ⊢
        rw [ih, pow_succ]
        ring

/-- Witness for C6: a concrete subdivision step (constant estimator 1, budget
0 at the root, so the gate fails), and the root state of a reachability chain. -/
theorem subdivision_budget_halves_witness :
    ((⟨0, 0, 0, 0⟩ : CubicBez).subdivide.1, (0 : ℝ) * 0.5, (1 : ℕ)).2.1 =
        ((⟨0, 0, 0, 0⟩ : CubicBez), (0 : ℝ), (0 : ℕ)).2.1 * 0.5 ∧
      ((⟨0, 0, 0, 0⟩ : CubicBez).subdivide.1, (0 : ℝ) * 0.5, (1 : ℕ)).2.1 +
          ((⟨0, 0, 0, 0⟩ : CubicBez).subdivide.1, (0 : ℝ) * 0.5, (1 : ℕ)).2.1 =
        ((⟨0, 0, 0, 0⟩ : CubicBez), (0 : ℝ), (0 : ℕ)).2.1 :=
  subdivision_budget_halves.1 (fun _ => 1) _ _
    (SubCall.left (by norm_num))

/-- The leaf counter of the generic driver does not depend on the per-leaf
quadrature. -/
theorem my_arclen_gen_aux_count (est : CubicBez → ℝ) (leaf1 leaf2 : CubicBez → ℝ) :
    ∀ (fuel : ℕ) (c : CubicBez) (accuracy : ℝ) (depth count : ℕ),
      (my_arclen_gen_aux est leaf1 fuel c accuracy depth count).2 =
        (my_arclen_gen_aux est leaf2 fuel c accuracy depth count).2 := by
  intro fuel
  induction fuel with
  | zero => intro c accuracy depth count; rfl
  | succ n ih =>
    intro c accuracy depth count
    by_cases h : depth = 16 ∨ est c < accuracy
    · simp only [my_arclen_gen_aux, if_pos h]
    · simp only [my_arclen_gen_aux, if_neg h]
      rw [ih c.subdivide.1 (accuracy * 0.5) (depth + 1) count]
      exact ih _ _ _ _

/-- `my_arclen9` is the generic driver at (`est_gauss9_error`, `gauss_arclen_9`). -/
theorem my_arclen9_aux_eq_gen :
    ∀ (fuel : ℕ) (c : CubicBez) (accuracy : ℝ) (depth count : ℕ),
      my_arclen9_aux fuel c accuracy depth count =
        my_arclen_gen_aux est_gauss9_error gauss_arclen_9 fuel c accuracy depth count := by
  intro fuel
  induction fuel with
  | zero => intro c accuracy depth count; rfl
  | succ n ih =>
    intro c accuracy depth count
    by_cases h : depth = 16 ∨ est_gauss9_error c < accuracy
    · simp only [my_arclen9_aux, my_arclen_gen_aux, if_pos h]
    · simp only [my_arclen9_aux, my_arclen_gen_aux, if_neg h]
      rw [ih c.subdivide.1 (accuracy * 0.5) (depth + 1) count]
      rw [ih c.subdivide.2 (accuracy * 0.5) (depth + 1) _]

/-- `my_arclen11` is the generic driver at (`est_gauss9_error`, `gauss_arclen_11`). -/
theorem my_arclen11_aux_eq_gen :
    ∀ (fuel : ℕ) (c : CubicBez) (accuracy : ℝ) (depth count : ℕ),
      my_arclen11_aux fuel c accuracy depth count =
        my_arclen_gen_aux est_gauss9_error gauss_arclen_11 fuel c accuracy depth count := by
  intro fuel
  induction fuel with
  | zero => intro c accuracy depth count; rfl
  | succ n ih =>
    intro c accuracy depth count
    by_cases h : depth = 16 ∨ est_gauss9_error c < accuracy
    · simp only [my_arclen11_aux, my_arclen_gen_aux, if_pos h]
    · simp only [my_arclen11_aux, my_arclen_gen_aux, if_neg h]
      rw [ih c.subdivide.1 (accuracy * 0.5) (depth + 1) count]
      rw [ih c.subdivide.2 (accuracy * 0.5) (depth + 1) _]

/-- C10: `my_arclen9` and `my_arclen11` make identical accept/subdivide
decisions (both gate on `est_gauss9_error`), so they leave the leaf counter at
the same final value; each is the shared generic driver instantiated with the
same estimator and only a different per-leaf quadrature. -/
theorem my_arclen11_same_tree_as_my_arclen9 (c : CubicBez) (accuracy : ℝ)
    (depth count : ℕ) :
    (my_arclen9 c accuracy depth count).2 = (my_arclen11 c accuracy depth count).2 ∧
      my_arclen9 c accuracy depth count =
        my_arclen_gen est_gauss9_error gauss_arclen_9 c accuracy depth count ∧
      my_arclen11 c accuracy depth count =
        my_arclen_gen est_gauss9_error gauss_arclen_11 c accuracy depth count := by
  refine ⟨?_, ?_, ?_⟩
  · show (my_arclen9_aux (16 - depth) c accuracy depth count).2 =
      (my_arclen11_aux (16 - depth) c accuracy depth count).2
    rw [my_arclen9_aux_eq_gen, my_arclen11_aux_eq_gen]
    exact my_arclen_gen_aux_count est_gauss9_error gauss_arclen_9 gauss_arclen_11 _ _ _ _ _
  · exact my_arclen9_aux_eq_gen _ _ _ _ _
  · exact my_arclen11_aux_eq_gen _ _ _ _ _

/-- With a NaN gate the driver subdivides: the count of leaves below fuel `f`
is exactly `2 ^ f` when the estimator always returns NaN. -/
theorem my_arclen_nan_aux_all_nan (est : CubicBez → Option ℝ) (leaf : CubicBez → ℝ)
    (hest : ∀ c, est c = none) :
    ∀ (fuel : ℕ) (c : CubicBez) (accuracy : ℝ) (depth count : ℕ),
      depth + fuel = 16 →
      (my_arclen_nan_aux est leaf fuel c accuracy depth count).2 = count + 2 ^ fuel := by
  intro fuel
  induction fuel with
  | zero => intro c accuracy depth count _; rfl
  | succ n ih =>
    intro c accuracy depth count hdf
    have h16 : ¬(depth = 16 ∨ nanLt (est c) accuracy) := by
      rintro (h | h)
      · omega
      · rw [hest c] at h; exact h
    simp only [my_arclen_nan_aux, if_neg h16]
    rw [ih c.subdivide.1 (accuracy * 0.5) (depth + 1) count (by omega)]
    rw [ih c.subdivide.2 (accuracy * 0.5) (depth + 1) _ (by omega)]
    ring

/-- C8: the driver never fails on a NaN error estimate.  If the estimate is
NaN (modelled as `none`, with the IEEE comparison `nanLt` false against any
accuracy), a call below the depth cap subdivides rather than accepting, and
when the estimator returns NaN everywhere the recursion from depth `d ≤ 16`
runs to the full depth cap, performing exactly `2 ^ (16 - d)` leaf evaluations. -/
theorem my_arclen_nan_subdivides (est : CubicBez → Option ℝ) (leaf : CubicBez → ℝ)
    (c : CubicBez) (accuracy : ℝ) (depth count : ℕ) :
    (depth < 16 → est c = none →
      my_arclen_nan est leaf c accuracy depth count =
        ((my_arclen_nan est leaf c.subdivide.1 (accuracy * 0.5) (depth + 1) count).1 +
            (my_arclen_nan est leaf c.subdivide.2 (accuracy * 0.5) (depth + 1)
              (my_arclen_nan est leaf c.subdivide.1 (accuracy * 0.5) (depth + 1) count).2).1,
          (my_arclen_nan est leaf c.subdivide.2 (accuracy * 0.5) (depth + 1)
            (my_arclen_nan est leaf c.subdivide.1 (accuracy * 0.5) (depth + 1) count).2).2)) ∧
    ((∀ c', est c' = none) → depth ≤ 16 →
      (my_arclen_nan est leaf c accuracy depth count).2 = count + 2 ^ (16 - depth)) := by
  constructor
  · intro hlt hnan
    have h16 : ¬(depth = 16 ∨ nanLt (est c) accuracy) := by
      rintro (h | h)
      · omega
      · rw [hnan] at h; exact h
    have hfuel : 16 - depth = (16 - (depth + 1)) + 1 := by omega
    show my_arclen_nan_aux est leaf (16 - depth) c accuracy depth count = _
    rw [hfuel, my_arclen_nan_aux, if_neg h16]
    rfl
  · intro hall hle
    exact my_arclen_nan_aux_all_nan est leaf hall (16 - depth) c accuracy depth count
      (by omega)

/-- Witness for C8: the everywhere-NaN estimator at the all-zero curve with
depth 0 subdivides at the root and performs `2 ^ 16` leaf evaluations. -/
theorem my_arclen_nan_subdivides_witness :
    (0 : ℕ) < 16 ∧ (fun _ : CubicBez => (none : Option ℝ)) ⟨0, 0, 0, 0⟩ = none ∧
      (0 : ℕ) ≤ 16 ∧
      (my_arclen_nan (fun _ => none) gauss_arclen_5 ⟨0, 0, 0, 0⟩ 1 0 0).2 =
        0 + 2 ^ (16 - 0) :=
  ⟨by norm_num, rfl, by norm_num,
    (my_arclen_nan_subdivides (fun _ => none) gauss_arclen_5 ⟨0, 0, 0, 0⟩ 1 0 0).2
      (fun _ => rfl) (by norm_num)⟩

theorem map_sum_nonneg (T : List (ℝ × ℝ)) (f : ℝ × ℝ → ℝ)
    (h : ∀ p ∈ T, 0 ≤ f p) : 0 ≤ (T.map f).sum := by
  apply List.sum_nonneg
  intro x hx
  rcases List.mem_map.1 hx with ⟨p, hp, rfl⟩
  exact h p hp

theorem GL9_weights_nonneg : ∀ p ∈ GAUSS_LEGENDRE_COEFFS_9, (0 : ℝ) ≤ p.1 := by
  intro p hp
  simp only [GAUSS_LEGENDRE_COEFFS_9, List.mem_cons, List.not_mem_nil, or_false] at hp
  rcases hp with rfl | rfl | rfl | rfl | rfl | rfl | rfl | rfl | rfl <;> norm_num

theorem GL11_weights_nonneg : ∀ p ∈ GAUSS_LEGENDRE_COEFFS_11, (0 : ℝ) ≤ p.1 := by
  intro p hp
  simp only [GAUSS_LEGENDRE_COEFFS_11, List.mem_cons, List.not_mem_nil, or_false] at hp
  rcases hp with rfl | rfl | rfl | rfl | rfl | rfl | rfl | rfl | rfl | rfl | rfl <;> norm_num

/-- The control polygon is at least as long as the chord (triangle inequality). -/
theorem chord_le_polygon (c : CubicBez) :
    (c.p3 - c.p0).hypot ≤
      (c.p1 - c.p0).hypot + (c.p2 - c.p1).hypot + (c.p3 - c.p2).hypot := by
  have h1 : (c.p3 - c.p0).hypot ≤ (c.p1 - c.p0).hypot + (c.p3 - c.p1).hypot := by
    have := Vec2.hypot_sub_le c.p3 c.p1 c.p0
    linarith [Vec2.hypot_sub_le c.p3 c.p1 c.p0]
  have h2 : (c.p3 - c.p1).hypot ≤ (c.p2 - c.p1).hypot + (c.p3 - c.p2).hypot := by
    linarith [Vec2.hypot_sub_le c.p3 c.p2 c.p1]
  linarith

theorem cubic_errnorm_nonneg (c : CubicBez) : 0 ≤ cubic_errnorm c := by
  simp only [cubic_errnorm, Vec2.hypot2, Vec2.dot, Vec2.sub_x, Vec2.sub_y]
  nlinarith [sq_nonneg (2 * (c.deriv.deriv.p0).x + ((c.deriv.deriv.p1).x - (c.deriv.deriv.p0).x)),
    sq_nonneg (2 * (c.deriv.deriv.p0).y + ((c.deriv.deriv.p1).y - (c.deriv.deriv.p0).y)),
    sq_nonneg ((c.deriv.deriv.p1).x - (c.deriv.deriv.p0).x),
    sq_nonneg ((c.deriv.deriv.p1).y - (c.deriv.deriv.p0).y)]

theorem est_gauss5_error_nonneg (c : CubicBez) : 0 ≤ est_gauss5_error c := by
  simp only [est_gauss5_error]
  have hlc := Vec2.hypot_nonneg (c.p3 - c.p0)
  have hlp : 0 ≤ (c.p1 - c.p0).hypot + (c.p2 - c.p1).hypot + (c.p3 - c.p2).hypot :=
    add_nonneg (add_nonneg (Vec2.hypot_nonneg _) (Vec2.hypot_nonneg _)) (Vec2.hypot_nonneg _)
  have hlmi : (0 : ℝ) ≤ 2.0 / (((c.p1 - c.p0).hypot + (c.p2 - c.p1).hypot +
      (c.p3 - c.p2).hypot) + (c.p3 - c.p0).hypot) :=
    div_nonneg (by norm_num) (add_nonneg hlp hlc)
  refine mul_nonneg (mul_nonneg (by norm_num) (pow_nonneg ?_ _)) hlp
  exact add_nonneg (mul_nonneg (Vec2.hypot_nonneg _) hlmi)
    (mul_nonneg (mul_nonneg (by norm_num) (Vec2.hypot_nonneg _)) hlmi)

theorem est_gauss7_error_nonneg (c : CubicBez) : 0 ≤ est_gauss7_error c := by
  simp only [est_gauss7_error]
  have hlp : 0 ≤ (c.p1 - c.p0).hypot + (c.p2 - c.p1).hypot + (c.p3 - c.p2).hypot :=
    add_nonneg (add_nonneg (Vec2.hypot_nonneg _) (Vec2.hypot_nonneg _)) (Vec2.hypot_nonneg _)
  refine mul_nonneg (mul_nonneg (by norm_num) (pow_nonneg ?_ _)) hlp
  exact div_nonneg (mul_nonneg (by norm_num) (cubic_errnorm_nonneg c)) (pow_nonneg (Vec2.hypot_nonneg _) _)

theorem est_gauss9_error_nonneg (c : CubicBez) : 0 ≤ est_gauss9_error c := by
  simp only [est_gauss9_error]
  have hlp : 0 ≤ (c.p1 - c.p0).hypot + (c.p2 - c.p1).hypot + (c.p3 - c.p2).hypot :=
    add_nonneg (add_nonneg (Vec2.hypot_nonneg _) (Vec2.hypot_nonneg _)) (Vec2.hypot_nonneg _)
  refine mul_nonneg (mul_nonneg (by norm_num) (pow_nonneg ?_ _)) hlp
  exact div_nonneg (mul_nonneg (by norm_num) (cubic_errnorm_nonneg c)) (pow_nonneg (Vec2.hypot_nonneg _) _)

theorem est_gauss11_error_nonneg (c : CubicBez) : 0 ≤ est_gauss11_error c := by
  simp only [est_gauss11_error]
  have hlp : 0 ≤ (c.p1 - c.p0).hypot + (c.p2 - c.p1).hypot + (c.p3 - c.p2).hypot :=
    add_nonneg (add_nonneg (Vec2.hypot_nonneg _) (Vec2.hypot_nonneg _)) (Vec2.hypot_nonneg _)
  refine mul_nonneg (mul_nonneg (by norm_num) (pow_nonneg ?_ _)) hlp
  exact div_nonneg (mul_nonneg (by norm_num) (cubic_errnorm_nonneg c)) (pow_nonneg (Vec2.hypot_nonneg _) _)

theorem est_gauss11_error_2_nonneg (c : CubicBez) : 0 ≤ est_gauss11_error_2 c := by
  simp only [est_gauss11_error_2]
  apply map_sum_nonneg
  intro p hp
  exact mul_nonneg (GL11_weights_nonneg p hp)
    (div_nonneg (pow_nonneg (Vec2.hypot2_nonneg _) _) (pow_nonneg (Vec2.hypot_nonneg _) _))

theorem est_gauss9_error_2_nonneg (c : CubicBez) : 0 ≤ est_gauss9_error_2 c := by
  simp only [est_gauss9_error_2]
  refine mul_nonneg (map_sum_nonneg _ _ ?_) (by norm_num)
  intro p hp
  refine mul_nonneg (GL9_weights_nonneg p hp) (mul_nonneg ?_ (Vec2.hypot_nonneg _))
  exact (Even.pow_nonneg (by decide) _)

theorem est_max_curvature_nonneg (c : CubicBez) : 0 ≤ est_max_curvature c := by
  simp only [est_max_curvature]
  have key : ∀ (l : List ℕ) (init : ℝ), 0 ≤ init →
      0 ≤ l.foldl (fun mx (i : ℕ) =>
        let k := |curvature c ((i : ℝ) * (10 : ℝ)⁻¹)|
        if ¬(k < mx) then k else mx) init := by
    intro l
    induction l with
    | nil => intro init h; simpa using h
    | cons a l ih =>
      intro init h
      simp only [List.foldl_cons]
      apply ih
      dsimp only
      by_cases hc : ¬(|curvature c ((a : ℝ) * (10 : ℝ)⁻¹)| < init)
      · rw [if_pos hc]; exact abs_nonneg _
      · rw [if_neg hc]; exact h
  exact key _ 0 le_rfl

theorem est_gauss11_error_3_nonneg (c : CubicBez) : 0 ≤ est_gauss11_error_3 c := by
  simp only [est_gauss11_error_3]
  have hpc : (0 : ℝ) ≤ ((c.p1 - c.p0).hypot + (c.p2 - c.p1).hypot + (c.p3 - c.p2).hypot -
      (c.p3 - c.p0).hypot) * 0.02 :=
    mul_nonneg (sub_nonneg.mpr (chord_le_polygon c)) (by norm_num)
  have hlp : 0 ≤ (c.p1 - c.p0).hypot + (c.p2 - c.p1).hypot + (c.p3 - c.p2).hypot :=
    add_nonneg (add_nonneg (Vec2.hypot_nonneg _) (Vec2.hypot_nonneg _)) (Vec2.hypot_nonneg _)
  have hest : (0 : ℝ) ≤ (est_max_curvature c * ((c.p1 - c.p0).hypot + (c.p2 - c.p1).hypot +
      (c.p3 - c.p2).hypot)) ^ (3 : ℕ) * ((c.p1 - c.p0).hypot + (c.p2 - c.p1).hypot +
      (c.p3 - c.p2).hypot) * 8e-9 :=
    mul_nonneg (mul_nonneg (pow_nonneg (mul_nonneg (est_max_curvature_nonneg c) hlp) _) hlp)
      (by norm_num)
  split_ifs <;> assumption

theorem est_gauss9_error_3_nonneg (c : CubicBez) : 0 ≤ est_gauss9_error_3 c := by
  simp only [est_gauss9_error_3]
  have hpc : (0 : ℝ) ≤ ((c.p1 - c.p0).hypot + (c.p2 - c.p1).hypot + (c.p3 - c.p2).hypot -
      (c.p3 - c.p0).hypot) * 0.02 :=
    mul_nonneg (sub_nonneg.mpr (chord_le_polygon c)) (by norm_num)
  have hlp : 0 ≤ (c.p1 - c.p0).hypot + (c.p2 - c.p1).hypot + (c.p3 - c.p2).hypot :=
    add_nonneg (add_nonneg (Vec2.hypot_nonneg _) (Vec2.hypot_nonneg _)) (Vec2.hypot_nonneg _)
  have hest : (0 : ℝ) ≤ (est_max_curvature c * ((c.p1 - c.p0).hypot + (c.p2 - c.p1).hypot +
      (c.p3 - c.p2).hypot)) ^ (3 : ℕ) * ((c.p1 - c.p0).hypot + (c.p2 - c.p1).hypot +
      (c.p3 - c.p2).hypot) * 5e-8 :=
    mul_nonneg (mul_nonneg (pow_nonneg (mul_nonneg (est_max_curvature_nonneg c) hlp) _) hlp)
      (by norm_num)
  split_ifs <;> assumption

theorem est_gauss9_error_6_nonneg (c : CubicBez) : 0 ≤ est_gauss9_error_6 c := by
  simp only [est_gauss9_error_6]
  refine mul_nonneg (le_min ?_ (by norm_num)) (sub_nonneg.mpr (chord_le_polygon c))
  refine mul_nonneg (pow_nonneg ?_ _) (by norm_num)
  apply map_sum_nonneg
  intro p hp
  exact mul_nonneg (GL9_weights_nonneg p hp)
    (div_nonneg (Vec2.hypot2_nonneg _) (Vec2.hypot2_nonneg _))

/-- Weighted Cauchy-Schwarz over a coefficient list: with non-negative weights,
the square of the weighted sum of `g` is at most the weight total times the
weighted sum of `g ^ 2`. -/
theorem list_sq_sum_le (g : ℝ × ℝ → ℝ) :
    ∀ (T : List (ℝ × ℝ)), (∀ p ∈ T, 0 ≤ p.1) →
      ((T.map (fun p => p.1 * g p)).sum) ^ 2 ≤
        ((T.map (fun p => p.1)).sum) * ((T.map (fun p => p.1 * (g p) ^ 2)).sum) := by
  intro T
  induction T with
  | nil => intro _; simp
  | cons a T ih =>
    intro hw
    have ha : 0 ≤ a.1 := hw a (List.mem_cons_self a T)
    have hw' : ∀ p ∈ T, 0 ≤ p.1 := fun p hp => hw p (List.mem_cons_of_mem _ hp)
    have hW : 0 ≤ (T.map (fun p => p.1)).sum := map_sum_nonneg T _ hw'
    have hS2 : 0 ≤ (T.map (fun p => p.1 * (g p) ^ 2)).sum :=
      map_sum_nonneg T _ (fun p hp => mul_nonneg (hw' p hp) (sq_nonneg _))
    have ihh := ih hw'
    simp only [List.map_cons, List.sum_cons]
    set W := (T.map (fun p => p.1)).sum with hWdef
    set S1 := (T.map (fun p => p.1 * g p)).sum with hS1def
    set S2 := (T.map (fun p => p.1 * (g p) ^ 2)).sum with hS2def
    rcases hW.eq_or_lt with hW0 | hWpos
    · have hS1 : S1 = 0 := by
        have h1 : S1 ^ 2 ≤ 0 := by rw [← hW0] at ihh; simpa using ihh
        have h2 : 0 ≤ S1 ^ 2 := sq_nonneg _
        exact pow_eq_zero_iff (n := 2) (by norm_num) |>.mp (le_antisymm h1 h2)
    
      rw [hS1, ← hW0]
      nlinarith [mul_nonneg ha hS2]
    · nlinarith [mul_nonneg ha (sq_nonneg (W * g a - S1)),
        mul_nonneg (add_nonneg ha hW) (sub_nonneg.mpr ihh), hWpos]

/-- The weights of the 9-point table sum to 2 exactly. -/
theorem GL9_weights_sum : ((GAUSS_LEGENDRE_COEFFS_9.map (fun p => p.1)).sum) = 2 := by
  simp only [GAUSS_LEGENDRE_COEFFS_9, List.map_cons, List.map_nil, List.sum_cons,
    List.sum_nil]
  norm_num

theorem est_gauss9_error_4_nonneg (c : CubicBez) : 0 ≤ est_gauss9_error_4 c := by
  simp only [est_gauss9_error_4]
  have hlp : 0 ≤ (c.p1 - c.p0).hypot + (c.p2 - c.p1).hypot + (c.p3 - c.p2).hypot :=
    add_nonneg (add_nonneg (Vec2.hypot_nonneg _) (Vec2.hypot_nonneg _)) (Vec2.hypot_nonneg _)
  refine mul_nonneg (mul_nonneg (by norm_num) ?_) hlp
  apply Real.rpow_nonneg
  apply div_nonneg
  · rw [sub_nonneg]
    have hcs := list_sq_sum_le (fun p => (c.deriv.eval (0.5 * (p.2 + 1.0))).hypot2)
      GAUSS_LEGENDRE_COEFFS_9 GL9_weights_nonneg
    rw [GL9_weights_sum] at hcs
    nlinarith [hcs]
  · exact Even.pow_nonneg (by decide) _

theorem foldl_min_le_init (f : ℕ → ℝ) :
    ∀ (l : List ℕ) (init : ℝ),
      l.foldl (fun mn (i : ℕ) => min mn (f i)) init ≤ init := by
  intro l
  induction l with
  | nil => intro init; simp
  | cons a l ih =>
    intro init
    simp only [List.foldl_cons]
    exact le_trans (ih _) (min_le_left _ _)

theorem foldl_min_le_mem (f : ℕ → ℝ) :
    ∀ (l : List ℕ) (init : ℝ) (i : ℕ), i ∈ l →
      l.foldl (fun mn (i : ℕ) => min mn (f i)) init ≤ f i := by
  intro l
  induction l with
  | nil => intro init i h; cases h
  | cons a l ih =>
    intro init i h
    simp only [List.foldl_cons]
    rcases List.mem_cons.1 h with rfl | h'
    · exact le_trans (foldl_min_le_init f l _) (min_le_right _ _)
    · exact ih _ i h'

theorem foldl_min_nonneg (f : ℕ → ℝ) (hf : ∀ i, 0 ≤ f i) :
    ∀ (l : List ℕ) (init : ℝ), 0 ≤ init →
      0 ≤ l.foldl (fun mn (i : ℕ) => min mn (f i)) init := by
  intro l
  induction l with
  | nil => intro init h; simpa using h
  | cons a l ih =>
    intro init h
    simp only [List.foldl_cons]
    exact ih _ (le_min h (hf a))

theorem QuadBez.eval_zero (q : QuadBez) : q.eval 0 = q.p0 := by
  ext <;> norm_num [QuadBez.eval]

theorem QuadBez.eval_one (q : QuadBez) : q.eval 1 = q.p2 := by
  ext <;> norm_num [QuadBez.eval]

theorem QuadBez.eval_half (q : QuadBez) :
    q.eval (1 / 2) = ((1 : ℝ) / 4) • (q.p0 + (2 : ℝ) • q.p1 + q.p2) := by
  ext <;> norm_num [QuadBez.eval] <;> ring

/-- The square root of the minimum sampled squared speed is at most
`lm = (controlPolygonLength + chordLength) / 2`: the sample set contains
`t = 0, 1/2, 1`, and a triangle-inequality argument on the derivative's control
vectors bounds the minimum speed by `lm`. -/
theorem sqrt_est_min_le (c : CubicBez) :
    Real.sqrt (est_min_deriv_norm2 c) ≤
      0.5 * (((c.p1 - c.p0).hypot + (c.p2 - c.p1).hypot + (c.p3 - c.p2).hypot) +
        (c.p3 - c.p0).hypot) := by
  set d := c.deriv with hd
  set m2 := est_min_deriv_norm2 c with hm2
  set m := Real.sqrt m2 with hm
  have hf : ∀ i : ℕ, 0 ≤ (d.eval ((i : ℝ) * (10000 : ℝ)⁻¹)).hypot2 :=
    fun i => Vec2.hypot2_nonneg _
  have hm2_nonneg : 0 ≤ m2 := by
    rw [hm2]
    simp only [est_min_deriv_norm2]
    exact foldl_min_nonneg _ hf _ _ (Vec2.hypot2_nonneg _)
  have hmem0 : (0 : ℕ) ∈ List.range 10000 := by simp
  have hmemH : (5000 : ℕ) ∈ List.range 10000 := by simp
  have hb0 : m2 ≤ (d.eval 0).hypot2 := by
    have h := foldl_min_le_mem
      (fun i : ℕ => (d.eval ((i : ℝ) * (10000 : ℝ)⁻¹)).hypot2)
      (List.range 10000) ((d.eval 1.0).hypot2) 0 hmem0
    have harg : ((0 : ℕ) : ℝ) * (10000 : ℝ)⁻¹ = 0 := by norm_num
    dsimp only at h
    rwa [harg] at h
  have hbH : m2 ≤ (d.eval (1 / 2)).hypot2 := by
    have h := foldl_min_le_mem
      (fun i : ℕ => (d.eval ((i : ℝ) * (10000 : ℝ)⁻¹)).hypot2)
      (List.range 10000) ((d.eval 1.0).hypot2) 5000 hmemH
    have harg : ((5000 : ℕ) : ℝ) * (10000 : ℝ)⁻¹ = 1 / 2 := by norm_num
    dsimp only at h
    rwa [harg] at h
  have hb1 : m2 ≤ (d.eval 1).hypot2 := by
    have h := foldl_min_le_init
      (fun i : ℕ => (d.eval ((i : ℝ) * (10000 : ℝ)⁻¹)).hypot2)
      (List.range 10000) ((d.eval 1.0).hypot2)
    have harg : (1.0 : ℝ) = 1 := by norm_num
    nth_rewrite 2 [harg] at h
    exact h
  have sqrt_hyp : ∀ v : Vec2, Real.sqrt v.hypot2 = v.hypot := fun v => rfl
  have hm0 : m ≤ (d.p0).hypot := by
    have := Real.sqrt_le_sqrt hb0
    rwa [sqrt_hyp, QuadBez.eval_zero] at this
  have hm1 : m ≤ (d.p2).hypot := by
    have := Real.sqrt_le_sqrt hb1
    rwa [sqrt_hyp, QuadBez.eval_one] at this
  have hmH : 4 * m ≤ (d.p0 + (2 : ℝ) • d.p1 + d.p2).hypot := by
    have h := Real.sqrt_le_sqrt hbH
    rw [sqrt_hyp, QuadBez.eval_half, Vec2.hypot_smul] at h
    have : |((1 : ℝ) / 4)| = 1 / 4 := by norm_num
    rw [this] at h
    linarith
  have htri : (d.p0 + (2 : ℝ) • d.p1 + d.p2).hypot ≤
      (d.p0 + d.p1 + d.p2).hypot + (d.p1).hypot := by
    have heq : d.p0 + (2 : ℝ) • d.p1 + d.p2 = (d.p0 + d.p1 + d.p2) + d.p1 := by
      ext <;> simp <;> ring
    rw [heq]
    exact Vec2.hypot_add_le _ _
  have hsum : d.p0 + d.p1 + d.p2 = (3 : ℝ) • (c.p3 - c.p0) := by
    rw [hd]
    ext <;> simp [CubicBez.deriv] <;> ring
  have hq0 : (d.p0).hypot = 3 * (c.p1 - c.p0).hypot := by
    rw [hd]
    show ((3 : ℝ) • (c.p1 - c.p0)).hypot = _
    rw [Vec2.hypot_smul]
    norm_num
  have hq1 : (d.p1).hypot = 3 * (c.p2 - c.p1).hypot := by
    rw [hd]
    show ((3 : ℝ) • (c.p2 - c.p1)).hypot = _
    rw [Vec2.hypot_smul]
    norm_num
  have hq2 : (d.p2).hypot = 3 * (c.p3 - c.p2).hypot := by
    rw [hd]
    show ((3 : ℝ) • (c.p3 - c.p2)).hypot = _
    rw [Vec2.hypot_smul]
    norm_num
  have hsumh : (d.p0 + d.p1 + d.p2).hypot = 3 * (c.p3 - c.p0).hypot := by
    rw [hsum, Vec2.hypot_smul]
    norm_num
  rw [hq0] at hm0
  rw [hq2] at hm1
  rw [hsumh, hq1] at htri
  linarith

theorem est_gauss9_error_5_nonneg (c : CubicBez) : 0 ≤ est_gauss9_error_5 c := by
  simp only [est_gauss9_error_5]
  refine mul_nonneg (mul_nonneg (pow_nonneg ?_ _) (by norm_num))
    (sub_nonneg.mpr (chord_le_polygon c))
  rw [sub_nonneg]
  set lm := (0.5 : ℝ) * (((c.p1 - c.p0).hypot + (c.p2 - c.p1).hypot +
    (c.p3 - c.p2).hypot) + (c.p3 - c.p0).hypot) with hlm
  have hm2_nonneg : 0 ≤ est_min_deriv_norm2 c := by
    simp only [est_min_deriv_norm2]
    exact foldl_min_nonneg _ (fun i => Vec2.hypot2_nonneg _) _ _ (Vec2.hypot2_nonneg _)
  have hsqrt := sqrt_est_min_le c
  rw [← hlm] at hsqrt
  have hlm_nonneg : 0 ≤ lm := le_trans (Real.sqrt_nonneg _) hsqrt
  rcases hlm_nonneg.eq_or_lt with hlm0 | hlmpos
  · rw [← hlm0]
    norm_num
  · have hm2_le : est_min_deriv_norm2 c ≤ lm ^ (2 : ℕ) := by
      have h1 : Real.sqrt (est_min_deriv_norm2 c) ^ 2 ≤ lm ^ 2 :=
        pow_le_pow_left (Real.sqrt_nonneg _) hsqrt 2
      rwa [Real.sq_sqrt hm2_nonneg] at h1
    have hpow : (0 : ℝ) < lm ^ (2 : ℕ) := pow_pos hlmpos _
    have hdiv : est_min_deriv_norm2 c / lm ^ (2 : ℕ) ≤ 1 := (div_le_one hpow).mpr hm2_le
    linarith

/-- C3: every error-estimator strategy in the file returns a non-negative value
on every cubic curve, as the shared estimator contract requires. -/
theorem all_error_estimators_nonneg (c : CubicBez) :
    0 ≤ est_gauss5_error c ∧ 0 ≤ est_gauss7_error c ∧ 0 ≤ est_gauss9_error c ∧
      0 ≤ est_gauss11_error c ∧ 0 ≤ est_gauss9_error_2 c ∧ 0 ≤ est_gauss9_error_3 c ∧
      0 ≤ est_gauss9_error_4 c ∧ 0 ≤ est_gauss9_error_5 c ∧ 0 ≤ est_gauss9_error_6 c ∧
      0 ≤ est_gauss11_error_2 c ∧ 0 ≤ est_gauss11_error_3 c :=
  ⟨est_gauss5_error_nonneg c, est_gauss7_error_nonneg c, est_gauss9_error_nonneg c,
    est_gauss11_error_nonneg c, est_gauss9_error_2_nonneg c, est_gauss9_error_3_nonneg c,
    est_gauss9_error_4_nonneg c, est_gauss9_error_5_nonneg c, est_gauss9_error_6_nonneg c,
    est_gauss11_error_2_nonneg c, est_gauss11_error_3_nonneg c⟩

theorem Vec2.sub_eq_zero {a b : Vec2} : a - b = 0 ↔ a = b := by
  constructor
  · intro h
    have hx := congrArg Vec2.x h
    have hy := congrArg Vec2.y h
    simp only [Vec2.sub_x, Vec2.sub_y, Vec2.zero_x, Vec2.zero_y] at hx hy
    ext
    · linarith
    · linarith
  · rintro rfl; ext <;> simp

theorem gauss_arclen_5_nonneg (c : CubicBez) : 0 ≤ gauss_arclen_5 c := by
  simp only [gauss_arclen_5]
  have h0 := Vec2.hypot_nonneg (c.p1 - c.p0)
  have h1 := Vec2.hypot_nonneg ((-0.558983582205757 : ℝ) • c.p0
    + (0.325650248872424 : ℝ) • c.p1 + (0.208983582205757 : ℝ) • c.p2
    + (0.024349751127576 : ℝ) • c.p3)
  have h2 := Vec2.hypot_nonneg (c.p3 - c.p0 + c.p2 - c.p1)
  have h3 := Vec2.hypot_nonneg ((-0.024349751127576 : ℝ) • c.p0
    - (0.208983582205757 : ℝ) • c.p1 - (0.325650248872424 : ℝ) • c.p2
    + (0.558983582205757 : ℝ) • c.p3)
  have h4 := Vec2.hypot_nonneg (c.p3 - c.p2)
  nlinarith

/-- The closed-form five-term estimate vanishes exactly on fully degenerate
segments (all four control points equal). -/
theorem gauss_arclen_5_eq_zero_iff (c : CubicBez) :
    gauss_arclen_5 c = 0 ↔ c.p1 = c.p0 ∧ c.p2 = c.p0 ∧ c.p3 = c.p0 := by
  constructor
  · intro h
    simp only [gauss_arclen_5] at h
    have h0 := Vec2.hypot_nonneg (c.p1 - c.p0)
    have h1 := Vec2.hypot_nonneg ((-0.558983582205757 : ℝ) • c.p0
      + (0.325650248872424 : ℝ) • c.p1 + (0.208983582205757 : ℝ) • c.p2
      + (0.024349751127576 : ℝ) • c.p3)
    have h2 := Vec2.hypot_nonneg (c.p3 - c.p0 + c.p2 - c.p1)
    have h3 := Vec2.hypot_nonneg ((-0.024349751127576 : ℝ) • c.p0
      - (0.208983582205757 : ℝ) • c.p1 - (0.325650248872424 : ℝ) • c.p2
      + (0.558983582205757 : ℝ) • c.p3)
    have h4 := Vec2.hypot_nonneg (c.p3 - c.p2)
    have hv0 : (c.p1 - c.p0).hypot = 0 := by nlinarith
    have hv4 : (c.p3 - c.p2).hypot = 0 := by nlinarith
    have hv1 : ((-0.558983582205757 : ℝ) • c.p0 + (0.325650248872424 : ℝ) • c.p1
        + (0.208983582205757 : ℝ) • c.p2 + (0.024349751127576 : ℝ) • c.p3).hypot = 0 := by
      nlinarith
    have hp1 : c.p1 = c.p0 := Vec2.sub_eq_zero.mp ((Vec2.hypot_eq_zero_iff _).mp hv0)
    have hp32 : c.p3 = c.p2 := Vec2.sub_eq_zero.mp ((Vec2.hypot_eq_zero_iff _).mp hv4)
    have hv1v := (Vec2.hypot_eq_zero_iff _).mp hv1
    have hx := congrArg Vec2.x hv1v
    have hy := congrArg Vec2.y hv1v
    rw [hp1, hp32] at hx hy
    simp only [Vec2.add_x, Vec2.add_y, Vec2.smul_x, Vec2.smul_y, Vec2.zero_x, Vec2.zero_y] at hx hy
    have hp2 : c.p2 = c.p0 := by
      ext
      · nlinarith
      · nlinarith
    exact ⟨hp1, hp2, hp32.trans hp2⟩
  · rintro ⟨h1, h2, h3⟩
    simp only [gauss_arclen_5, h1, h2, h3]
    have hz1 : (-0.558983582205757 : ℝ) • c.p0 + (0.325650248872424 : ℝ) • c.p0
        + (0.208983582205757 : ℝ) • c.p0 + (0.024349751127576 : ℝ) • c.p0 = 0 := by
      ext <;> simp <;> ring
    have hz3 : (-0.024349751127576 : ℝ) • c.p0 - (0.208983582205757 : ℝ) • c.p0
        - (0.325650248872424 : ℝ) • c.p0 + (0.558983582205757 : ℝ) • c.p0 = 0 := by
      ext <;> simp <;> ring
    have hz2 : c.p0 - c.p0 + c.p0 - c.p0 = (0 : Vec2) := by ext <;> simp
    have hz0 : c.p0 - c.p0 = (0 : Vec2) := by ext <;> simp
    rw [hz1, hz2, hz3, hz0]
    simp

/-- The left half of the midpoint subdivision reparametrizes the original
curve: `c0.eval t = c.eval (t/2)`. -/
theorem subdivide_left_eval (c : CubicBez) (t : ℝ) :
    c.subdivide.1.eval t = c.eval (t / 2) := by
  ext <;> simp [CubicBez.subdivide, CubicBez.eval] <;> ring

theorem degenerate_eval_const (c : CubicBez)
    (h : c.p1 = c.p0 ∧ c.p2 = c.p0 ∧ c.p3 = c.p0) (t : ℝ) : c.eval t = c.eval 0 := by
  obtain ⟨h1, h2, h3⟩ := h
  simp only [CubicBez.eval, h1, h2, h3]
  ext <;> simp <;> ring

theorem eval_const_imp_degenerate (c : CubicBez)
    (h : ∀ t : ℝ, c.eval t = c.eval 0) :
    c.p1 = c.p0 ∧ c.p2 = c.p0 ∧ c.p3 = c.p0 := by
  have h1x := congrArg Vec2.x (h 1)
  have h2x := congrArg Vec2.x (h 2)
  have h3x := congrArg Vec2.x (h 3)
  have h1y := congrArg Vec2.y (h 1)
  have h2y := congrArg Vec2.y (h 2)
  have h3y := congrArg Vec2.y (h 3)
  norm_num [CubicBez.eval] at h1x h2x h3x h1y h2y h3y
  refine ⟨?_, ?_, ?_⟩ <;> ext
  · linarith
  · linarith
  · linarith
  · linarith
  · linarith
  · linarith

theorem subdivide_degenerate (c : CubicBez)
    (h : c.p1 = c.p0 ∧ c.p2 = c.p0 ∧ c.p3 = c.p0) :
    (c.subdivide.1.p1 = c.subdivide.1.p0 ∧ c.subdivide.1.p2 = c.subdivide.1.p0 ∧
      c.subdivide.1.p3 = c.subdivide.1.p0) ∧
    (c.subdivide.2.p1 = c.subdivide.2.p0 ∧ c.subdivide.2.p2 = c.subdivide.2.p0 ∧
      c.subdivide.2.p3 = c.subdivide.2.p0) := by
  obtain ⟨h1, h2, h3⟩ := h
  simp only [CubicBez.subdivide, h1, h2, h3]
  refine ⟨⟨?_, ?_, ?_⟩, ⟨?_, ?_, ?_⟩⟩ <;> ext <;> simp <;> ring

theorem my_arclen_aux_value_nonneg :
    ∀ (fuel : ℕ) (c : CubicBez) (accuracy : ℝ) (depth count : ℕ),
      0 ≤ (my_arclen_aux fuel c accuracy depth count).1 := by
  intro fuel
  induction fuel with
  | zero => intro c accuracy depth count; exact gauss_arclen_5_nonneg c
  | succ n ih =>
    intro c accuracy depth count
    by_cases h : depth = 16 ∨ est_gauss5_error c < accuracy
    · simp only [my_arclen_aux, if_pos h]
      exact gauss_arclen_5_nonneg c
    · simp only [my_arclen_aux, if_neg h]
      exact add_nonneg (ih _ _ _ _) (ih _ _ _ _)

theorem my_arclen_aux_value_zero_imp :
    ∀ (fuel : ℕ) (c : CubicBez) (accuracy : ℝ) (depth count : ℕ),
      (my_arclen_aux fuel c accuracy depth count).1 = 0 →
        ∀ t : ℝ, c.eval t = c.eval 0 := by
  intro fuel
  induction fuel with
  | zero =>
    intro c accuracy depth count h t
    exact degenerate_eval_const c (gauss_arclen_5_eq_zero_iff c |>.mp h) t
  | succ n ih =>
    intro c accuracy depth count h t
    by_cases hc : depth = 16 ∨ est_gauss5_error c < accuracy
    · simp only [my_arclen_aux, if_pos hc] at h
      exact degenerate_eval_const c (gauss_arclen_5_eq_zero_iff c |>.mp h) t
    · simp only [my_arclen_aux, if_neg hc] at h
      have h0 := my_arclen_aux_value_nonneg n c.subdivide.1 (accuracy * 0.5) (depth + 1) count
      have h1 := my_arclen_aux_value_nonneg n c.subdivide.2 (accuracy * 0.5) (depth + 1)
        (my_arclen_aux n c.subdivide.1 (accuracy * 0.5) (depth + 1) count).2
      have hz : (my_arclen_aux n c.subdivide.1 (accuracy * 0.5) (depth + 1) count).1 = 0 := by
        linarith
      have hconst := ih c.subdivide.1 (accuracy * 0.5) (depth + 1) count hz
      have key : ∀ s : ℝ, c.eval s = c.eval 0 := by
        intro s
        have e1 : c.subdivide.1.eval (2 * s) = c.eval s := by
          rw [subdivide_left_eval]
          norm_num
        have e2 : c.subdivide.1.eval 0 = c.eval 0 := by
          rw [subdivide_left_eval]
          norm_num
        rw [← e1, hconst (2 * s), e2]
      exact key t

theorem my_arclen_aux_value_degenerate :
    ∀ (fuel : ℕ) (c : CubicBez) (accuracy : ℝ) (depth count : ℕ),
      (c.p1 = c.p0 ∧ c.p2 = c.p0 ∧ c.p3 = c.p0) →
        (my_arclen_aux fuel c accuracy depth count).1 = 0 := by
  intro fuel
  induction fuel with
  | zero =>
    intro c accuracy depth count h
    exact gauss_arclen_5_eq_zero_iff c |>.mpr h
  | succ n ih =>
    intro c accuracy depth count h
    by_cases hc : depth = 16 ∨ est_gauss5_error c < accuracy
    · simp only [my_arclen_aux, if_pos hc]
      exact gauss_arclen_5_eq_zero_iff c |>.mpr h
    · simp only [my_arclen_aux, if_neg hc]
      obtain ⟨hl, hr⟩ := subdivide_degenerate c h
      rw [ih _ _ _ _ hl, ih _ _ _ _ hr]
      norm_num

/-- C7: the adaptive estimate of `my_arclen` is non-negative for every curve
and positive accuracy, and it is exactly zero precisely when the segment is
fully degenerate (all four control points coincide). -/
theorem my_arclen_nonneg_and_zero_iff (c : CubicBez) (accuracy : ℝ) (count : ℕ)
    (hacc : 0 < accuracy) :
    0 ≤ (my_arclen c accuracy 0 count).1 ∧
      ((my_arclen c accuracy 0 count).1 = 0 ↔
        c.p1 = c.p0 ∧ c.p2 = c.p0 ∧ c.p3 = c.p0) := by
  refine ⟨my_arclen_aux_value_nonneg _ _ _ _ _, ?_, ?_⟩
  · intro h
    exact eval_const_imp_degenerate c (my_arclen_aux_value_zero_imp _ _ _ _ _ h)
  · intro h
    exact my_arclen_aux_value_degenerate _ _ _ _ _ h

/-- Witness for C7 at a concrete input (the degenerate curve at the origin,
accuracy 1). -/
theorem my_arclen_nonneg_and_zero_iff_witness :
    (0 : ℝ) < 1 ∧
      (0 ≤ (my_arclen ⟨0, 0, 0, 0⟩ 1 0 0).1 ∧
        ((my_arclen ⟨0, 0, 0, 0⟩ 1 0 0).1 = 0 ↔
          (⟨0, 0, 0, 0⟩ : CubicBez).p1 = (⟨0, 0, 0, 0⟩ : CubicBez).p0 ∧
            (⟨0, 0, 0, 0⟩ : CubicBez).p2 = (⟨0, 0, 0, 0⟩ : CubicBez).p0 ∧
            (⟨0, 0, 0, 0⟩ : CubicBez).p3 = (⟨0, 0, 0, 0⟩ : CubicBez).p0)) :=
  ⟨by norm_num, my_arclen_nonneg_and_zero_iff ⟨0, 0, 0, 0⟩ 1 0 (by norm_num)⟩

theorem rotVec_hypot {co si : ℝ} (h : co ^ 2 + si ^ 2 = 1) (v : Vec2) :
    (rotVec co si v).hypot = v.hypot := by
  unfold Vec2.hypot
  congr 1
  simp only [rotVec, Vec2.hypot2]
  linear_combination (v.x * v.x + v.y * v.y) * h

theorem rigid_sub (co si tx ty : ℝ) (p q : Vec2) :
    rigidPoint co si tx ty p - rigidPoint co si tx ty q = rotVec co si (p - q) := by
  ext <;> simp [rigidPoint, rotVec] <;> ring


/-- The second derivative of a rigidly-moved cubic evaluates to the rotation
of the original second derivative (translations vanish under differentiation). -/
theorem rigid_d2_eval (co si tx ty : ℝ) (c : CubicBez) (t : ℝ) :
    (rigidCubic co si tx ty c).deriv.deriv.eval t =
      rotVec co si (c.deriv.deriv.eval t) := by
  ext <;>
    simp [rigidCubic, CubicBez.deriv, QuadBez.deriv, Line.eval, rigidPoint, rotVec] <;>
    ring

/-- Likewise for the third derivative. -/
theorem rigid_d3_eval (co si tx ty : ℝ) (c : CubicBez) (t : ℝ) :
    (rigidCubic co si tx ty c).deriv.deriv.deriv.eval t =
      rotVec co si (c.deriv.deriv.deriv.eval t) := by
  ext <;>
    simp [rigidCubic, CubicBez.deriv, QuadBez.deriv, Line.deriv, ConstPoint.eval,
      rigidPoint, rotVec] <;>
    ring

theorem est_gauss5_error_rigid {co si : ℝ} (tx ty : ℝ) (h : co ^ 2 + si ^ 2 = 1)
    (c : CubicBez) :
    est_gauss5_error (rigidCubic co si tx ty c) = est_gauss5_error c := by
  simp only [est_gauss5_error]
  rw [rigid_d2_eval, rigid_d3_eval, rotVec_hypot h, rotVec_hypot h]
  simp only [rigidCubic]
  simp only [rigid_sub, rotVec_hypot h]

/-- The five norms of the closed-form estimate are rigid-motion invariant: the
translation parts cancel because every coefficient vector sums to zero. -/
theorem gauss_arclen_5_rigid {co si : ℝ} (tx ty : ℝ) (h : co ^ 2 + si ^ 2 = 1)
    (c : CubicBez) :
    gauss_arclen_5 (rigidCubic co si tx ty c) = gauss_arclen_5 c := by
  have hv1 : (-0.558983582205757 : ℝ) • (rigidCubic co si tx ty c).p0
      + (0.325650248872424 : ℝ) • (rigidCubic co si tx ty c).p1
      + (0.208983582205757 : ℝ) • (rigidCubic co si tx ty c).p2
      + (0.024349751127576 : ℝ) • (rigidCubic co si tx ty c).p3 =
      rotVec co si ((-0.558983582205757 : ℝ) • c.p0 + (0.325650248872424 : ℝ) • c.p1
        + (0.208983582205757 : ℝ) • c.p2 + (0.024349751127576 : ℝ) • c.p3) := by
    ext <;> simp [rigidCubic, rigidPoint, rotVec] <;> ring
  have hv3 : (-0.024349751127576 : ℝ) • (rigidCubic co si tx ty c).p0
      - (0.208983582205757 : ℝ) • (rigidCubic co si tx ty c).p1
      - (0.325650248872424 : ℝ) • (rigidCubic co si tx ty c).p2
      + (0.558983582205757 : ℝ) • (rigidCubic co si tx ty c).p3 =
      rotVec co si ((-0.024349751127576 : ℝ) • c.p0 - (0.208983582205757 : ℝ) • c.p1
        - (0.325650248872424 : ℝ) • c.p2 + (0.558983582205757 : ℝ) • c.p3) := by
    ext <;> simp [rigidCubic, rigidPoint, rotVec] <;> ring
  have hv2 : (rigidCubic co si tx ty c).p3 - (rigidCubic co si tx ty c).p0
      + (rigidCubic co si tx ty c).p2 - (rigidCubic co si tx ty c).p1 =
      rotVec co si (c.p3 - c.p0 + c.p2 - c.p1) := by
    ext <;> simp [rigidCubic, rigidPoint, rotVec] <;> ring
  simp only [gauss_arclen_5]
  rw [hv1, hv2, hv3, rotVec_hypot h, rotVec_hypot h, rotVec_hypot h]
  simp only [rigidCubic]
  simp only [rigid_sub, rotVec_hypot h]

@[ext] theorem CubicBez.ext_pts {a b : CubicBez} (h0 : a.p0 = b.p0) (h1 : a.p1 = b.p1)
    (h2 : a.p2 = b.p2) (h3 : a.p3 = b.p3) : a = b := by
  cases a; cases b; simp_all

theorem rigid_subdivide_left (co si tx ty : ℝ) (c : CubicBez) :
    (rigidCubic co si tx ty c).subdivide.1 = rigidCubic co si tx ty c.subdivide.1 := by
  ext <;> simp [CubicBez.subdivide, rigidCubic, rigidPoint] <;> ring

theorem rigid_subdivide_right (co si tx ty : ℝ) (c : CubicBez) :
    (rigidCubic co si tx ty c).subdivide.2 = rigidCubic co si tx ty c.subdivide.2 := by
  ext <;> simp [CubicBez.subdivide, rigidCubic, rigidPoint] <;> ring

theorem my_arclen_aux_rigid {co si : ℝ} (tx ty : ℝ) (h : co ^ 2 + si ^ 2 = 1) :
    ∀ (fuel : ℕ) (c : CubicBez) (accuracy : ℝ) (depth count : ℕ),
      my_arclen_aux fuel (rigidCubic co si tx ty c) accuracy depth count =
        my_arclen_aux fuel c accuracy depth count := by
  intro fuel
  induction fuel with
  | zero =>
    intro c accuracy depth count
    simp only [my_arclen_aux]
    rw [gauss_arclen_5_rigid tx ty h]
  | succ n ih =>
    intro c accuracy depth count
    simp only [my_arclen_aux]
    rw [est_gauss5_error_rigid tx ty h, gauss_arclen_5_rigid tx ty h]
    by_cases hc : depth = 16 ∨ est_gauss5_error c < accuracy
    · rw [if_pos hc, if_pos hc]
    · rw [if_neg hc, if_neg hc, rigid_subdivide_left, rigid_subdivide_right]
      rw [ih c.subdivide.1 (accuracy * 0.5) (depth + 1) count]
      rw [ih c.subdivide.2 (accuracy * 0.5) (depth + 1) _]

/-- C9: `my_arclen` is invariant under rigid motions (rotation plus
translation): every quantity it consults — the closed-form leaf estimate and
the `est_gauss5_error` gate — depends only on norms of rotated difference and
derivative vectors, and subdivision commutes with the motion, so both the
returned length and the leaf count coincide. -/
theorem my_arclen_rigid_invariant (co si tx ty : ℝ) (c : CubicBez)
    (accuracy : ℝ) (depth count : ℕ) (h : co ^ 2 + si ^ 2 = 1) :
    my_arclen (rigidCubic co si tx ty c) accuracy depth count =
      my_arclen c accuracy depth count :=
  my_arclen_aux_rigid tx ty h (16 - depth) c accuracy depth count

/-- Witness for C9: the rotation by angle 0 composed with translation (3, 4),
applied at a concrete curve. -/
theorem my_arclen_rigid_invariant_witness :
    (1 : ℝ) ^ 2 + (0 : ℝ) ^ 2 = 1 ∧
      my_arclen (rigidCubic 1 0 3 4 ⟨⟨0, 0⟩, ⟨1, 0⟩, ⟨2, 0⟩, ⟨3, 0⟩⟩) 1 0 0 =
        my_arclen ⟨⟨0, 0⟩, ⟨1, 0⟩, ⟨2, 0⟩, ⟨3, 0⟩⟩ 1 0 0 :=
  ⟨by norm_num,
    my_arclen_rigid_invariant 1 0 3 4 ⟨⟨0, 0⟩, ⟨1, 0⟩, ⟨2, 0⟩, ⟨3, 0⟩⟩ 1 0 0 (by norm_num)⟩

/-- On an evenly-spaced collinear cubic the second and third derivatives
vanish, so `est_gauss5_error` is exactly zero. -/
theorem est_gauss5_error_straight (p0 v : Vec2) :
    est_gauss5_error ⟨p0, p0 + ((1 : ℝ)/3) • v, p0 + ((2 : ℝ)/3) • v, p0 + v⟩ = 0 := by
  have h2 : (CubicBez.mk p0 (p0 + ((1 : ℝ)/3) • v) (p0 + ((2 : ℝ)/3) • v)
      (p0 + v)).deriv.deriv.eval 0.5 = (0 : Vec2) := by
    ext <;> simp [CubicBez.deriv, QuadBez.deriv, Line.eval] <;> ring
  have h3 : (CubicBez.mk p0 (p0 + ((1 : ℝ)/3) • v) (p0 + ((2 : ℝ)/3) • v)
      (p0 + v)).deriv.deriv.deriv.eval 0.5 = (0 : Vec2) := by
    ext <;> simp [CubicBez.deriv, QuadBez.deriv, Line.deriv, ConstPoint.eval] <;> ring
  simp only [est_gauss5_error]
  rw [h2, h3, Vec2.hypot_zero]
  norm_num

/-- The closed-form estimate of an evenly-spaced collinear cubic is the exact
rational constant `37499999999999983/37500000000000000` times `|v|` (not `|v|`:
the printed decimal coefficients are roundings of the exact quadrature rule). -/
theorem gauss_arclen_5_straight (p0 v : Vec2) :
    gauss_arclen_5 ⟨p0, p0 + ((1 : ℝ)/3) • v, p0 + ((2 : ℝ)/3) • v, p0 + v⟩ =
      (37499999999999983 / 37500000000000000 : ℝ) * v.hypot := by
  simp only [gauss_arclen_5]
  have h0 : (p0 + ((1 : ℝ)/3) • v) - p0 = ((1 : ℝ)/3) • v := by ext <;> simp <;> ring
  have h1 : (-0.558983582205757 : ℝ) • p0 + (0.325650248872424 : ℝ) • (p0 + ((1 : ℝ)/3) • v)
      + (0.208983582205757 : ℝ) • (p0 + ((2 : ℝ)/3) • v) + (0.024349751127576 : ℝ) • (p0 + v)
      = (0.272222222222222 : ℝ) • v := by ext <;> simp <;> ring
  have h2 : (p0 + v) - p0 + (p0 + ((2 : ℝ)/3) • v) - (p0 + ((1 : ℝ)/3) • v)
      = ((4 : ℝ)/3) • v := by ext <;> simp <;> ring
  have h3 : (-0.024349751127576 : ℝ) • p0 - (0.208983582205757 : ℝ) • (p0 + ((1 : ℝ)/3) • v)
      - (0.325650248872424 : ℝ) • (p0 + ((2 : ℝ)/3) • v) + (0.558983582205757 : ℝ) • (p0 + v)
      = (0.272222222222222 : ℝ) • v := by ext <;> simp <;> ring
  have h4 : (p0 + v) - (p0 + ((2 : ℝ)/3) • v) = ((1 : ℝ)/3) • v := by ext <;> simp <;> ring
  rw [h0, h1, h2, h3, h4, Vec2.hypot_smul, Vec2.hypot_smul, Vec2.hypot_smul]
  rw [abs_of_nonneg (by norm_num : (0 : ℝ) ≤ (1 : ℝ)/3),
    abs_of_nonneg (by norm_num : (0 : ℝ) ≤ (0.272222222222222 : ℝ)),
    abs_of_nonneg (by norm_num : (0 : ℝ) ≤ (4 : ℝ)/3)]
  ring

/-- With a positive accuracy, `my_arclen` on an evenly-spaced collinear cubic
accepts at depth 0 (error estimate 0) and returns the closed-form value. -/
theorem my_arclen_straight_eval (p0 v : Vec2) (accuracy : ℝ) (count : ℕ)
    (hacc : 0 < accuracy) :
    my_arclen ⟨p0, p0 + ((1 : ℝ)/3) • v, p0 + ((2 : ℝ)/3) • v, p0 + v⟩ accuracy 0 count =
      ((37499999999999983 / 37500000000000000 : ℝ) * v.hypot, count + 1) := by
  show my_arclen_aux (16 - 0) _ accuracy 0 count = _
  rw [show (16 - 0 : ℕ) = 15 + 1 from rfl, my_arclen_aux]
  rw [if_pos (Or.inr (by rw [est_gauss5_error_straight p0 v]; exact hacc))]
  rw [gauss_arclen_5_straight]

/-- C5 counterexample: on the unit straight segment with evenly spaced control
points the claim's asserted exact equality with the chord length fails — the
returned value is `37499999999999983/37500000000000000`, not `1`. -/
theorem my_arclen_straight_ne_chord :
    (my_arclen ⟨⟨0, 0⟩, ⟨1/3, 0⟩, ⟨2/3, 0⟩, ⟨1, 0⟩⟩ 1 0 0).1 ≠
      ((⟨⟨0, 0⟩, ⟨1/3, 0⟩, ⟨2/3, 0⟩, ⟨1, 0⟩⟩ : CubicBez).p3 -
        (⟨⟨0, 0⟩, ⟨1/3, 0⟩, ⟨2/3, 0⟩, ⟨1, 0⟩⟩ : CubicBez).p0).hypot := by
  have hc : (⟨⟨0, 0⟩, ⟨1/3, 0⟩, ⟨2/3, 0⟩, ⟨1, 0⟩⟩ : CubicBez) =
      ⟨⟨0, 0⟩, (⟨0, 0⟩ : Vec2) + ((1 : ℝ)/3) • ⟨1, 0⟩,
        (⟨0, 0⟩ : Vec2) + ((2 : ℝ)/3) • ⟨1, 0⟩, (⟨0, 0⟩ : Vec2) + ⟨1, 0⟩⟩ := by
    ext <;> norm_num
  rw [hc, my_arclen_straight_eval _ _ _ _ (by norm_num)]
  have hv : ((⟨1, 0⟩ : Vec2)).hypot = 1 := by
    simp [Vec2.hypot, Vec2.hypot2]
  have hd : ((⟨0, 0⟩ : Vec2) + ⟨1, 0⟩) - ⟨0, 0⟩ = (⟨1, 0⟩ : Vec2) := by ext <;> simp
  show (37499999999999983 / 37500000000000000 : ℝ) * Vec2.hypot ⟨1, 0⟩ ≠ _
  rw [hv, hd, hv]
  norm_num

/-- C5 (amended): for an evenly-spaced collinear cubic and positive accuracy,
`est_gauss5_error` is exactly 0, `my_arclen` accepts at depth 0 without
subdividing (one leaf), and the returned length is the fixed rational constant
`K = 37499999999999983/37500000000000000` times the chord length — within
`1e-15` of the chord length, but not exactly equal to it. -/
theorem my_arclen_straight_near_chord (p0 v : Vec2) (accuracy : ℝ) (count : ℕ)
    (hacc : 0 < accuracy) :
    est_gauss5_error ⟨p0, p0 + ((1 : ℝ)/3) • v, p0 + ((2 : ℝ)/3) • v, p0 + v⟩ = 0 ∧
      my_arclen ⟨p0, p0 + ((1 : ℝ)/3) • v, p0 + ((2 : ℝ)/3) • v, p0 + v⟩ accuracy 0 count =
        ((37499999999999983 / 37500000000000000 : ℝ) * v.hypot, count + 1) ∧
      |(37499999999999983 / 37500000000000000 : ℝ) - 1| < 1e-15 :=
  ⟨est_gauss5_error_straight p0 v, my_arclen_straight_eval p0 v accuracy count hacc,
    by rw [abs_of_nonpos (by norm_num)]; norm_num⟩

/-- Witness for the amended C5 at the unit straight segment. -/
theorem my_arclen_straight_near_chord_witness :
    (0 : ℝ) < 1 ∧
      est_gauss5_error ⟨⟨0, 0⟩, (⟨0, 0⟩ : Vec2) + ((1 : ℝ)/3) • ⟨1, 0⟩,
        (⟨0, 0⟩ : Vec2) + ((2 : ℝ)/3) • ⟨1, 0⟩, (⟨0, 0⟩ : Vec2) + ⟨1, 0⟩⟩ = 0 ∧
      my_arclen ⟨⟨0, 0⟩, (⟨0, 0⟩ : Vec2) + ((1 : ℝ)/3) • ⟨1, 0⟩,
          (⟨0, 0⟩ : Vec2) + ((2 : ℝ)/3) • ⟨1, 0⟩, (⟨0, 0⟩ : Vec2) + ⟨1, 0⟩⟩ 1 0 0 =
        ((37499999999999983 / 37500000000000000 : ℝ) * (⟨1, 0⟩ : Vec2).hypot, 0 + 1) ∧
      |(37499999999999983 / 37500000000000000 : ℝ) - 1| < 1e-15 :=
  ⟨by norm_num, my_arclen_straight_near_chord ⟨0, 0⟩ ⟨1, 0⟩ 1 0 (by norm_num)⟩

theorem hypot_axis (a : ℝ) : Vec2.hypot ⟨a, 0⟩ = |a| := by
  show Real.sqrt (a * a + 0 * 0) = |a|
  rw [show a * a + 0 * 0 = a ^ 2 by ring, Real.sqrt_sq_eq_abs]

/-- On the cusp curve ((0,0),(-1,0),(-1,0),(0,0)) the derivative is the
horizontal vector (6t-3, 0). -/
theorem cusp_deriv_eval (t : ℝ) :
    (CubicBez.mk ⟨0, 0⟩ ⟨-1, 0⟩ ⟨-1, 0⟩ ⟨0, 0⟩).deriv.eval t =
      ⟨6 * t - 3, 0⟩ := by
  ext <;> simp [CubicBez.deriv, QuadBez.eval] <;> ring

/-- The closed-form estimate of the cusp curve is the exact rational
1.369267662156362. -/
theorem gauss_arclen_5_cusp :
    gauss_arclen_5 ⟨⟨0, 0⟩, ⟨-1, 0⟩, ⟨-1, 0⟩, ⟨0, 0⟩⟩ = 1.369267662156362 := by
  simp only [gauss_arclen_5]
  have h0 : ((⟨-1, 0⟩ : Vec2) - ⟨0, 0⟩) = (⟨-1, 0⟩ : Vec2) := by ext <;> simp
  have h1 : (-0.558983582205757 : ℝ) • (⟨0, 0⟩ : Vec2) +
      (0.325650248872424 : ℝ) • (⟨-1, 0⟩ : Vec2) +
      (0.208983582205757 : ℝ) • (⟨-1, 0⟩ : Vec2) +
      (0.024349751127576 : ℝ) • (⟨0, 0⟩ : Vec2) =
      (⟨-0.534633831078181, 0⟩ : Vec2) := by
    ext <;> simp <;> norm_num
  have h2 : ((⟨0, 0⟩ : Vec2) - ⟨0, 0⟩ + ⟨-1, 0⟩ - ⟨-1, 0⟩) = (0 : Vec2) := by
    ext <;> simp
  have h3 : (-0.024349751127576 : ℝ) • (⟨0, 0⟩ : Vec2) -
      (0.208983582205757 : ℝ) • (⟨-1, 0⟩ : Vec2) -
      (0.325650248872424 : ℝ) • (⟨-1, 0⟩ : Vec2) +
      (0.558983582205757 : ℝ) • (⟨0, 0⟩ : Vec2) =
      (⟨0.534633831078181, 0⟩ : Vec2) := by
    ext <;> simp <;> norm_num
  have h4 : ((⟨0, 0⟩ : Vec2) - ⟨-1, 0⟩) = (⟨1, 0⟩ : Vec2) := by ext <;> simp
  rw [h0, h1, h2, h3, h4, hypot_axis, hypot_axis, hypot_axis, hypot_axis, Vec2.hypot_zero]
  rw [abs_of_nonpos (by norm_num : (-1 : ℝ) ≤ 0),
    abs_of_nonpos (by norm_num : (-0.534633831078181 : ℝ) ≤ 0),
    abs_of_nonneg (by norm_num : (0 : ℝ) ≤ (0.534633831078181 : ℝ)),
    abs_of_nonneg (by norm_num : (0 : ℝ) ≤ (1 : ℝ))]
  norm_num

/-- The generic 5-point Gauss-Legendre quadrature of the cusp curve's speed is
a different exact rational, about 1.41727565. -/
theorem gauss_legendre_5_cusp :
    CubicBez.gauss_arclen ⟨⟨0, 0⟩, ⟨-1, 0⟩, ⟨-1, 0⟩, ⟨0, 0⟩⟩ GAUSS_LEGENDRE_COEFFS_5 =
      (28345513091972351334146327107113 / 20000000000000000000000000000000 : ℝ) := by
  simp only [CubicBez.gauss_arclen, GAUSS_LEGENDRE_COEFFS_5, List.map_cons,
    List.map_nil, List.sum_cons, List.sum_nil]
  simp only [cusp_deriv_eval, hypot_axis]
  rw [abs_of_nonneg (by norm_num : (0 : ℝ) ≤ 6 * (0.5 * ((0.0000000000000000 : ℝ) + 1)) - 3),
    abs_of_nonpos (by norm_num : 6 * (0.5 * ((-0.5384693101056831 : ℝ) + 1)) - 3 ≤ 0),
    abs_of_nonneg (by norm_num : (0 : ℝ) ≤ 6 * (0.5 * ((0.5384693101056831 : ℝ) + 1)) - 3),
    abs_of_nonpos (by norm_num : 6 * (0.5 * ((-0.9061798459386640 : ℝ) + 1)) - 3 ≤ 0),
    abs_of_nonneg (by norm_num : (0 : ℝ) ≤ 6 * (0.5 * ((0.9061798459386640 : ℝ) + 1)) - 3)]
  norm_num

/-- C4 counterexample: on the cusp curve ((0,0),(-1,0),(-1,0),(0,0)) the
closed-form five-term estimate (1.369267662156362) differs from the generic
5-point Gauss-Legendre quadrature of the speed (about 1.41727565): the closed
form is not the Gauss-Legendre rule. -/
theorem gauss_arclen_5_ne_legendre_quadrature :
    gauss_arclen_5 ⟨⟨0, 0⟩, ⟨-1, 0⟩, ⟨-1, 0⟩, ⟨0, 0⟩⟩ ≠
      CubicBez.gauss_arclen ⟨⟨0, 0⟩, ⟨-1, 0⟩, ⟨-1, 0⟩, ⟨0, 0⟩⟩ GAUSS_LEGENDRE_COEFFS_5 := by
  rw [gauss_arclen_5_cusp, gauss_legendre_5_cusp]
  norm_num

theorem hypot_sub_le2 (a b : Vec2) : (a - b).hypot ≤ a.hypot + b.hypot := by
  have h : a - b = a + ((-1 : ℝ)) • b := by ext <;> simp <;> ring
  have hb : (((-1 : ℝ)) • b).hypot = b.hypot := by
    rw [Vec2.hypot_smul]; norm_num
  rw [h]
  calc (a + ((-1 : ℝ)) • b).hypot ≤ a.hypot + (((-1 : ℝ)) • b).hypot :=
        Vec2.hypot_add_le _ _
    _ = a.hypot + b.hypot := by rw [hb]

/-- Reverse triangle inequality for the Euclidean norm. -/
theorem abs_hypot_sub_hypot (a b : Vec2) : |a.hypot - b.hypot| ≤ (a - b).hypot := by
  have h1 : a.hypot ≤ (a - b).hypot + b.hypot := by
    have : a = (a - b) + b := by ext <;> simp
    calc a.hypot = ((a - b) + b).hypot := by rw [← this]
      _ ≤ (a - b).hypot + b.hypot := Vec2.hypot_add_le _ _
  have h2 : b.hypot ≤ (a - b).hypot + a.hypot := by
    have heq : b = a - (a - b) := by ext <;> simp
    calc b.hypot = (a - (a - b)).hypot := by rw [← heq]
      _ ≤ a.hypot + (a - b).hypot := hypot_sub_le2 _ _
      _ = (a - b).hypot + a.hypot := by ring
  rw [abs_le]
  constructor <;> linarith

/-- Norm bound for a four-term linear combination of points. -/
theorem hypot_combo_le (r0 r1 r2 r3 : ℝ) (a b cc d : Vec2) :
    (r0 • a + r1 • b + r2 • cc + r3 • d).hypot ≤
      |r0| * a.hypot + |r1| * b.hypot + |r2| * cc.hypot + |r3| * d.hypot := by
  calc (r0 • a + r1 • b + r2 • cc + r3 • d).hypot
      ≤ (r0 • a + r1 • b + r2 • cc).hypot + (r3 • d).hypot := Vec2.hypot_add_le _ _
    _ ≤ ((r0 • a + r1 • b).hypot + (r2 • cc).hypot) + (r3 • d).hypot := by
        have := Vec2.hypot_add_le (r0 • a + r1 • b) (r2 • cc)
        linarith
    _ ≤ (((r0 • a).hypot + (r1 • b).hypot) + (r2 • cc).hypot) + (r3 • d).hypot := by
        have := Vec2.hypot_add_le (r0 • a) (r1 • b)
        linarith
    _ = |r0| * a.hypot + |r1| * b.hypot + |r2| * cc.hypot + |r3| * d.hypot := by
        rw [Vec2.hypot_smul, Vec2.hypot_smul, Vec2.hypot_smul, Vec2.hypot_smul]

/-- The Lobatto node `-sqrt(3/7)` contribution: `(49/180) B'(t1)` equals an
explicit linear combination of the control points with coefficients in
`sqrt 21`. -/
theorem lobatto_node1_eval (c : CubicBez) :
    ((49 : ℝ)/180) • (c.deriv.eval (0.5 * (-(Real.sqrt 21 / 7) + 1))) =
      (-((35 + 7 * Real.sqrt 21)/120)) • c.p0 + ((7 + 7 * Real.sqrt 21)/120) • c.p1 +
        ((-7 + 7 * Real.sqrt 21)/120) • c.p2 + ((35 - 7 * Real.sqrt 21)/120) • c.p3 := by
  have hs : Real.sqrt 21 ^ 2 = 21 := Real.sq_sqrt (by norm_num)
  ext
  · simp only [CubicBez.deriv, QuadBez.eval, Vec2.add_x, Vec2.smul_x, Vec2.sub_x]
    linear_combination ((-c.p0.x + 3 * c.p1.x - 3 * c.p2.x + c.p3.x) / 240) * hs
  · simp only [CubicBez.deriv, QuadBez.eval, Vec2.add_y, Vec2.smul_y, Vec2.sub_y]
    linear_combination ((-c.p0.y + 3 * c.p1.y - 3 * c.p2.y + c.p3.y) / 240) * hs

/-- The Lobatto node `sqrt(3/7)` contribution, mirrored. -/
theorem lobatto_node3_eval (c : CubicBez) :
    ((49 : ℝ)/180) • (c.deriv.eval (0.5 * (Real.sqrt 21 / 7 + 1))) =
      (-((35 - 7 * Real.sqrt 21)/120)) • c.p0 + ((7 - 7 * Real.sqrt 21)/120) • c.p1 +
        ((-7 - 7 * Real.sqrt 21)/120) • c.p2 + ((35 + 7 * Real.sqrt 21)/120) • c.p3 := by
  have hs : Real.sqrt 21 ^ 2 = 21 := Real.sq_sqrt (by norm_num)
  ext
  · simp only [CubicBez.deriv, QuadBez.eval, Vec2.add_x, Vec2.smul_x, Vec2.sub_x]
    linear_combination ((-c.p0.x + 3 * c.p1.x - 3 * c.p2.x + c.p3.x) / 240) * hs
  · simp only [CubicBez.deriv, QuadBez.eval, Vec2.add_y, Vec2.smul_y, Vec2.sub_y]
    linear_combination ((-c.p0.y + 3 * c.p1.y - 3 * c.p2.y + c.p3.y) / 240) * hs

/-- Closed form of the generic quadrature over the 5-point Lobatto table:
the endpoint and midpoint terms are exactly the `0.15` and `4/15` weighted
norms, and the two interior nodes give norms of explicit `sqrt 21`
combinations of the control points. -/
theorem lobatto5_closed (c : CubicBez) :
    c.gauss_arclen GAUSS_LOBATTO_COEFFS_5 =
      (c.p1 - c.p0).hypot * 0.15 +
        ((-((35 + 7 * Real.sqrt 21)/120)) • c.p0 + ((7 + 7 * Real.sqrt 21)/120) • c.p1 +
          ((-7 + 7 * Real.sqrt 21)/120) • c.p2 + ((35 - 7 * Real.sqrt 21)/120) • c.p3).hypot +
        (c.p3 - c.p0 + c.p2 - c.p1).hypot * (4/15) +
        ((-((35 - 7 * Real.sqrt 21)/120)) • c.p0 + ((7 - 7 * Real.sqrt 21)/120) • c.p1 +
          ((-7 - 7 * Real.sqrt 21)/120) • c.p2 + ((35 + 7 * Real.sqrt 21)/120) • c.p3).hypot +
        (c.p3 - c.p2).hypot * 0.15 := by
  simp only [CubicBez.gauss_arclen, GAUSS_LOBATTO_COEFFS_5, List.map_cons, List.map_nil,
    List.sum_cons, List.sum_nil]
  rw [show (0.5 * ((-1 : ℝ) + 1)) = 0 from by norm_num,
    show (0.5 * ((0 : ℝ) + 1)) = 1/2 from by norm_num,
    show (0.5 * ((1 : ℝ) + 1)) = 1 from by norm_num]
  rw [QuadBez.eval_zero, QuadBez.eval_one, QuadBez.eval_half]
  have he0 : ((c.deriv).p0).hypot = 3 * (c.p1 - c.p0).hypot := by
    show ((3 : ℝ) • (c.p1 - c.p0)).hypot = _
    rw [Vec2.hypot_smul]
    norm_num
  have he4 : ((c.deriv).p2).hypot = 3 * (c.p3 - c.p2).hypot := by
    show ((3 : ℝ) • (c.p3 - c.p2)).hypot = _
    rw [Vec2.hypot_smul]
    norm_num
  have heH : (((1 : ℝ)/4) • ((c.deriv).p0 + (2 : ℝ) • (c.deriv).p1 + (c.deriv).p2)).hypot
      = (3/4) * (c.p3 - c.p0 + c.p2 - c.p1).hypot := by
    have hmid : (c.deriv).p0 + (2 : ℝ) • (c.deriv).p1 + (c.deriv).p2 =
        (3 : ℝ) • (c.p3 - c.p0 + c.p2 - c.p1) := by
      ext <;> simp [CubicBez.deriv] <;> ring
    rw [Vec2.hypot_smul, hmid, Vec2.hypot_smul,
      abs_of_nonneg (by norm_num : (0 : ℝ) ≤ (1 : ℝ)/4),
      abs_of_nonneg (by norm_num : (0 : ℝ) ≤ (3 : ℝ))]
    ring
  have hn1 : (c.deriv.eval (0.5 * (-(Real.sqrt 21 / 7) + 1))).hypot =
      (180/49) * ((-((35 + 7 * Real.sqrt 21)/120)) • c.p0 +
        ((7 + 7 * Real.sqrt 21)/120) • c.p1 + ((-7 + 7 * Real.sqrt 21)/120) • c.p2 +
        ((35 - 7 * Real.sqrt 21)/120) • c.p3).hypot := by
    rw [← lobatto_node1_eval c, Vec2.hypot_smul,
      abs_of_nonneg (by norm_num : (0 : ℝ) ≤ (49 : ℝ)/180)]
    ring
  have hn3 : (c.deriv.eval (0.5 * (Real.sqrt 21 / 7 + 1))).hypot =
      (180/49) * ((-((35 - 7 * Real.sqrt 21)/120)) • c.p0 +
        ((7 - 7 * Real.sqrt 21)/120) • c.p1 + ((-7 - 7 * Real.sqrt 21)/120) • c.p2 +
        ((35 + 7 * Real.sqrt 21)/120) • c.p3).hypot := by
    rw [← lobatto_node3_eval c, Vec2.hypot_smul,
      abs_of_nonneg (by norm_num : (0 : ℝ) ≤ (49 : ℝ)/180)]
    ring
  rw [he0, he4, heH, hn1, hn3]
  ring

/-- The endpoint and midpoint contributions of the closed form and of the
Lobatto quadrature cancel exactly; only the two interior-node norms and a
`6.7e-18` mismatch on the midpoint weight remain. -/
theorem gauss5_minus_lobatto (c : CubicBez) :
    gauss_arclen_5 c - c.gauss_arclen GAUSS_LOBATTO_COEFFS_5 =
      (((-0.558983582205757 : ℝ) • c.p0 + (0.325650248872424 : ℝ) • c.p1 +
          (0.208983582205757 : ℝ) • c.p2 + (0.024349751127576 : ℝ) • c.p3).hypot -
        ((-((35 + 7 * Real.sqrt 21)/120)) • c.p0 + ((7 + 7 * Real.sqrt 21)/120) • c.p1 +
          ((-7 + 7 * Real.sqrt 21)/120) • c.p2 + ((35 - 7 * Real.sqrt 21)/120) • c.p3).hypot) +
      (((-0.024349751127576 : ℝ) • c.p0 - (0.208983582205757 : ℝ) • c.p1 -
          (0.325650248872424 : ℝ) • c.p2 + (0.558983582205757 : ℝ) • c.p3).hypot -
        ((-((35 - 7 * Real.sqrt 21)/120)) • c.p0 + ((7 - 7 * Real.sqrt 21)/120) • c.p1 +
          ((-7 - 7 * Real.sqrt 21)/120) • c.p2 + ((35 + 7 * Real.sqrt 21)/120) • c.p3).hypot) +
      ((0.26666666666666666 - 4/15) * (c.p3 - c.p0 + c.p2 - c.p1).hypot) := by
  rw [lobatto5_closed]
  simp only [gauss_arclen_5]
  ring

theorem lobatto_delta1 (c : CubicBez) :
    ((-0.558983582205757 : ℝ) • c.p0 + (0.325650248872424 : ℝ) • c.p1 +
        (0.208983582205757 : ℝ) • c.p2 + (0.024349751127576 : ℝ) • c.p3) -
      ((-((35 + 7 * Real.sqrt 21)/120)) • c.p0 + ((7 + 7 * Real.sqrt 21)/120) • c.p1 +
        ((-7 + 7 * Real.sqrt 21)/120) • c.p2 + ((35 - 7 * Real.sqrt 21)/120) • c.p3) =
      ((-0.558983582205757 : ℝ) + (35 + 7 * Real.sqrt 21)/120) • c.p0 +
        ((0.325650248872424 : ℝ) - (7 + 7 * Real.sqrt 21)/120) • c.p1 +
        ((0.208983582205757 : ℝ) - (-7 + 7 * Real.sqrt 21)/120) • c.p2 +
        ((0.024349751127576 : ℝ) - (35 - 7 * Real.sqrt 21)/120) • c.p3 := by
  ext <;> simp <;> ring

theorem lobatto_delta3 (c : CubicBez) :
    ((-0.024349751127576 : ℝ) • c.p0 - (0.208983582205757 : ℝ) • c.p1 -
        (0.325650248872424 : ℝ) • c.p2 + (0.558983582205757 : ℝ) • c.p3) -
      ((-((35 - 7 * Real.sqrt 21)/120)) • c.p0 + ((7 - 7 * Real.sqrt 21)/120) • c.p1 +
        ((-7 - 7 * Real.sqrt 21)/120) • c.p2 + ((35 + 7 * Real.sqrt 21)/120) • c.p3) =
      ((-0.024349751127576 : ℝ) + (35 - 7 * Real.sqrt 21)/120) • c.p0 +
        ((-0.208983582205757 : ℝ) - (7 - 7 * Real.sqrt 21)/120) • c.p1 +
        ((-0.325650248872424 : ℝ) - (-7 - 7 * Real.sqrt 21)/120) • c.p2 +
        ((0.558983582205757 : ℝ) - (35 + 7 * Real.sqrt 21)/120) • c.p3 := by
  ext <;> simp <;> ring

theorem sqrt21_gt : (4.58257569495584 : ℝ) < Real.sqrt 21 := by
  rw [show (4.58257569495584 : ℝ) = Real.sqrt (4.58257569495584 ^ 2) from
    (Real.sqrt_sq (by norm_num)).symm]
  exact Real.sqrt_lt_sqrt (by positivity) (by norm_num)

theorem sqrt21_lt : Real.sqrt 21 < 4.582575694955841 := by
  rw [show (4.582575694955841 : ℝ) = Real.sqrt (4.582575694955841 ^ 2) from
    (Real.sqrt_sq (by norm_num)).symm]
  exact Real.sqrt_lt_sqrt (by norm_num) (by norm_num)

theorem lobatto_piece1_bound (c : CubicBez) :
    |((-0.558983582205757 : ℝ) • c.p0 + (0.325650248872424 : ℝ) • c.p1 +
        (0.208983582205757 : ℝ) • c.p2 + (0.024349751127576 : ℝ) • c.p3).hypot -
      ((-((35 + 7 * Real.sqrt 21)/120)) • c.p0 + ((7 + 7 * Real.sqrt 21)/120) • c.p1 +
        ((-7 + 7 * Real.sqrt 21)/120) • c.p2 + ((35 - 7 * Real.sqrt 21)/120) • c.p3).hypot|
      ≤ 4.5e-16 * (c.p0.hypot + c.p1.hypot + c.p2.hypot + c.p3.hypot) := by
  have hlo := sqrt21_gt
  have hhi := sqrt21_lt
  have hb0 : |(-0.558983582205757 : ℝ) + (35 + 7 * Real.sqrt 21)/120| ≤ 4.5e-16 :=
    abs_le.mpr ⟨by linarith, by linarith⟩
  have hb1 : |(0.325650248872424 : ℝ) - (7 + 7 * Real.sqrt 21)/120| ≤ 4.5e-16 :=
    abs_le.mpr ⟨by linarith, by linarith⟩
  have hb2 : |(0.208983582205757 : ℝ) - (-7 + 7 * Real.sqrt 21)/120| ≤ 4.5e-16 :=
    abs_le.mpr ⟨by linarith, by linarith⟩
  have hb3 : |(0.024349751127576 : ℝ) - (35 - 7 * Real.sqrt 21)/120| ≤ 4.5e-16 :=
    abs_le.mpr ⟨by linarith, by linarith⟩
  calc |((-0.558983582205757 : ℝ) • c.p0 + (0.325650248872424 : ℝ) • c.p1 +
        (0.208983582205757 : ℝ) • c.p2 + (0.024349751127576 : ℝ) • c.p3).hypot -
      ((-((35 + 7 * Real.sqrt 21)/120)) • c.p0 + ((7 + 7 * Real.sqrt 21)/120) • c.p1 +
        ((-7 + 7 * Real.sqrt 21)/120) • c.p2 + ((35 - 7 * Real.sqrt 21)/120) • c.p3).hypot|
      ≤ (((-0.558983582205757 : ℝ) • c.p0 + (0.325650248872424 : ℝ) • c.p1 +
          (0.208983582205757 : ℝ) • c.p2 + (0.024349751127576 : ℝ) • c.p3) -
        ((-((35 + 7 * Real.sqrt 21)/120)) • c.p0 + ((7 + 7 * Real.sqrt 21)/120) • c.p1 +
          ((-7 + 7 * Real.sqrt 21)/120) • c.p2 + ((35 - 7 * Real.sqrt 21)/120) • c.p3)).hypot :=
        abs_hypot_sub_hypot _ _
    _ = (((-0.558983582205757 : ℝ) + (35 + 7 * Real.sqrt 21)/120) • c.p0 +
          ((0.325650248872424 : ℝ) - (7 + 7 * Real.sqrt 21)/120) • c.p1 +
          ((0.208983582205757 : ℝ) - (-7 + 7 * Real.sqrt 21)/120) • c.p2 +
          ((0.024349751127576 : ℝ) - (35 - 7 * Real.sqrt 21)/120) • c.p3).hypot := by
        rw [lobatto_delta1]
    _ ≤ |(-0.558983582205757 : ℝ) + (35 + 7 * Real.sqrt 21)/120| * c.p0.hypot +
          |(0.325650248872424 : ℝ) - (7 + 7 * Real.sqrt 21)/120| * c.p1.hypot +
          |(0.208983582205757 : ℝ) - (-7 + 7 * Real.sqrt 21)/120| * c.p2.hypot +
          |(0.024349751127576 : ℝ) - (35 - 7 * Real.sqrt 21)/120| * c.p3.hypot :=
        hypot_combo_le _ _ _ _ _ _ _ _
    _ ≤ 4.5e-16 * c.p0.hypot + 4.5e-16 * c.p1.hypot + 4.5e-16 * c.p2.hypot +
          4.5e-16 * c.p3.hypot := by
        have n0 := Vec2.hypot_nonneg c.p0
        have n1 := Vec2.hypot_nonneg c.p1
        have n2 := Vec2.hypot_nonneg c.p2
        have n3 := Vec2.hypot_nonneg c.p3
        have m0 := mul_le_mul_of_nonneg_right hb0 n0
        have m1 := mul_le_mul_of_nonneg_right hb1 n1
        have m2 := mul_le_mul_of_nonneg_right hb2 n2
        have m3 := mul_le_mul_of_nonneg_right hb3 n3
        linarith
    _ = 4.5e-16 * (c.p0.hypot + c.p1.hypot + c.p2.hypot + c.p3.hypot) := by ring

theorem lobatto_piece3_bound (c : CubicBez) :
    |((-0.024349751127576 : ℝ) • c.p0 - (0.208983582205757 : ℝ) • c.p1 -
        (0.325650248872424 : ℝ) • c.p2 + (0.558983582205757 : ℝ) • c.p3).hypot -
      ((-((35 - 7 * Real.sqrt 21)/120)) • c.p0 + ((7 - 7 * Real.sqrt 21)/120) • c.p1 +
        ((-7 - 7 * Real.sqrt 21)/120) • c.p2 + ((35 + 7 * Real.sqrt 21)/120) • c.p3).hypot|
      ≤ 4.5e-16 * (c.p0.hypot + c.p1.hypot + c.p2.hypot + c.p3.hypot) := by
  have hlo := sqrt21_gt
  have hhi := sqrt21_lt
  have hb0 : |(-0.024349751127576 : ℝ) + (35 - 7 * Real.sqrt 21)/120| ≤ 4.5e-16 :=
    abs_le.mpr ⟨by linarith, by linarith⟩
  have hb1 : |(-0.208983582205757 : ℝ) - (7 - 7 * Real.sqrt 21)/120| ≤ 4.5e-16 :=
    abs_le.mpr ⟨by linarith, by linarith⟩
  have hb2 : |(-0.325650248872424 : ℝ) - (-7 - 7 * Real.sqrt 21)/120| ≤ 4.5e-16 :=
    abs_le.mpr ⟨by linarith, by linarith⟩
  have hb3 : |(0.558983582205757 : ℝ) - (35 + 7 * Real.sqrt 21)/120| ≤ 4.5e-16 :=
    abs_le.mpr ⟨by linarith, by linarith⟩
  calc |((-0.024349751127576 : ℝ) • c.p0 - (0.208983582205757 : ℝ) • c.p1 -
        (0.325650248872424 : ℝ) • c.p2 + (0.558983582205757 : ℝ) • c.p3).hypot -
      ((-((35 - 7 * Real.sqrt 21)/120)) • c.p0 + ((7 - 7 * Real.sqrt 21)/120) • c.p1 +
        ((-7 - 7 * Real.sqrt 21)/120) • c.p2 + ((35 + 7 * Real.sqrt 21)/120) • c.p3).hypot|
      ≤ (((-0.024349751127576 : ℝ) • c.p0 - (0.208983582205757 : ℝ) • c.p1 -
          (0.325650248872424 : ℝ) • c.p2 + (0.558983582205757 : ℝ) • c.p3) -
        ((-((35 - 7 * Real.sqrt 21)/120)) • c.p0 + ((7 - 7 * Real.sqrt 21)/120) • c.p1 +
          ((-7 - 7 * Real.sqrt 21)/120) • c.p2 + ((35 + 7 * Real.sqrt 21)/120) • c.p3)).hypot :=
        abs_hypot_sub_hypot _ _
    _ = (((-0.024349751127576 : ℝ) + (35 - 7 * Real.sqrt 21)/120) • c.p0 +
          ((-0.208983582205757 : ℝ) - (7 - 7 * Real.sqrt 21)/120) • c.p1 +
          ((-0.325650248872424 : ℝ) - (-7 - 7 * Real.sqrt 21)/120) • c.p2 +
          ((0.558983582205757 : ℝ) - (35 + 7 * Real.sqrt 21)/120) • c.p3).hypot := by
        rw [lobatto_delta3]
    _ ≤ |(-0.024349751127576 : ℝ) + (35 - 7 * Real.sqrt 21)/120| * c.p0.hypot +
          |(-0.208983582205757 : ℝ) - (7 - 7 * Real.sqrt 21)/120| * c.p1.hypot +
          |(-0.325650248872424 : ℝ) - (-7 - 7 * Real.sqrt 21)/120| * c.p2.hypot +
          |(0.558983582205757 : ℝ) - (35 + 7 * Real.sqrt 21)/120| * c.p3.hypot :=
        hypot_combo_le _ _ _ _ _ _ _ _
    _ ≤ 4.5e-16 * c.p0.hypot + 4.5e-16 * c.p1.hypot + 4.5e-16 * c.p2.hypot +
          4.5e-16 * c.p3.hypot := by
        have n0 := Vec2.hypot_nonneg c.p0
        have n1 := Vec2.hypot_nonneg c.p1
        have n2 := Vec2.hypot_nonneg c.p2
        have n3 := Vec2.hypot_nonneg c.p3
        have m0 := mul_le_mul_of_nonneg_right hb0 n0
        have m1 := mul_le_mul_of_nonneg_right hb1 n1
        have m2 := mul_le_mul_of_nonneg_right hb2 n2
        have m3 := mul_le_mul_of_nonneg_right hb3 n3
        linarith
    _ = 4.5e-16 * (c.p0.hypot + c.p1.hypot + c.p2.hypot + c.p3.hypot) := by ring

/-- C4 (amended): `gauss_arclen_5` is not the 5-point Gauss-Legendre rule; it
is (up to last-digit rounding of its printed decimal coefficients) the generic
quadrature over the 5-point Gauss-LOBATTO table: for every cubic the two
values differ by at most `1e-15` times the total norm of the control points. -/
theorem gauss_arclen_5_is_lobatto (c : CubicBez) :
    |gauss_arclen_5 c - c.gauss_arclen GAUSS_LOBATTO_COEFFS_5| ≤
      1e-15 * (c.p0.hypot + c.p1.hypot + c.p2.hypot + c.p3.hypot) := by
  rw [gauss5_minus_lobatto]
  have hb1 := lobatto_piece1_bound c
  have hb3 := lobatto_piece3_bound c
  have hV2 : (c.p3 - c.p0 + c.p2 - c.p1).hypot ≤
      c.p0.hypot + c.p1.hypot + c.p2.hypot + c.p3.hypot := by
    calc (c.p3 - c.p0 + c.p2 - c.p1).hypot
        ≤ (c.p3 - c.p0 + c.p2).hypot + c.p1.hypot := hypot_sub_le2 _ _
      _ ≤ ((c.p3 - c.p0).hypot + c.p2.hypot) + c.p1.hypot := by
          have := Vec2.hypot_add_le (c.p3 - c.p0) c.p2
          linarith
      _ ≤ ((c.p3.hypot + c.p0.hypot) + c.p2.hypot) + c.p1.hypot := by
          have := hypot_sub_le2 c.p3 c.p0
          linarith
      _ = c.p0.hypot + c.p1.hypot + c.p2.hypot + c.p3.hypot := by ring
  have hbv : |(0.26666666666666666 - 4/15 : ℝ) *
      (c.p3 - c.p0 + c.p2 - c.p1).hypot| ≤
      1e-17 * (c.p0.hypot + c.p1.hypot + c.p2.hypot + c.p3.hypot) := by
    rw [abs_mul, abs_of_nonneg (Vec2.hypot_nonneg _),
      abs_of_nonpos (by norm_num : (0.26666666666666666 - 4/15 : ℝ) ≤ 0)]
    have hc : (0 : ℝ) ≤ -(0.26666666666666666 - 4/15 : ℝ) := by norm_num
    calc -(0.26666666666666666 - 4/15 : ℝ) * (c.p3 - c.p0 + c.p2 - c.p1).hypot
        ≤ -(0.26666666666666666 - 4/15 : ℝ) *
            (c.p0.hypot + c.p1.hypot + c.p2.hypot + c.p3.hypot) :=
          mul_le_mul_of_nonneg_left hV2 hc
      _ ≤ 1e-17 * (c.p0.hypot + c.p1.hypot + c.p2.hypot + c.p3.hypot) := by
          have n0 := Vec2.hypot_nonneg c.p0
          have n1 := Vec2.hypot_nonneg c.p1
          have n2 := Vec2.hypot_nonneg c.p2
          have n3 := Vec2.hypot_nonneg c.p3
          nlinarith
  have habs := abs_add
    ((((-0.558983582205757 : ℝ) • c.p0 + (0.325650248872424 : ℝ) • c.p1 +
        (0.208983582205757 : ℝ) • c.p2 + (0.024349751127576 : ℝ) • c.p3).hypot -
      ((-((35 + 7 * Real.sqrt 21)/120)) • c.p0 + ((7 + 7 * Real.sqrt 21)/120) • c.p1 +
        ((-7 + 7 * Real.sqrt 21)/120) • c.p2 + ((35 - 7 * Real.sqrt 21)/120) • c.p3).hypot) +
     (((-0.024349751127576 : ℝ) • c.p0 - (0.208983582205757 : ℝ) • c.p1 -
        (0.325650248872424 : ℝ) • c.p2 + (0.558983582205757 : ℝ) • c.p3).hypot -
      ((-((35 - 7 * Real.sqrt 21)/120)) • c.p0 + ((7 - 7 * Real.sqrt 21)/120) • c.p1 +
        ((-7 - 7 * Real.sqrt 21)/120) • c.p2 + ((35 + 7 * Real.sqrt 21)/120) • c.p3).hypot))
    ((0.26666666666666666 - 4/15 : ℝ) * (c.p3 - c.p0 + c.p2 - c.p1).hypot)
  have habs2 := abs_add
    (((-0.558983582205757 : ℝ) • c.p0 + (0.325650248872424 : ℝ) • c.p1 +
        (0.208983582205757 : ℝ) • c.p2 + (0.024349751127576 : ℝ) • c.p3).hypot -
      ((-((35 + 7 * Real.sqrt 21)/120)) • c.p0 + ((7 + 7 * Real.sqrt 21)/120) • c.p1 +
        ((-7 + 7 * Real.sqrt 21)/120) • c.p2 + ((35 - 7 * Real.sqrt 21)/120) • c.p3).hypot)
    (((-0.024349751127576 : ℝ) • c.p0 - (0.208983582205757 : ℝ) • c.p1 -
        (0.325650248872424 : ℝ) • c.p2 + (0.558983582205757 : ℝ) • c.p3).hypot -
      ((-((35 - 7 * Real.sqrt 21)/120)) • c.p0 + ((7 - 7 * Real.sqrt 21)/120) • c.p1 +
        ((-7 - 7 * Real.sqrt 21)/120) • c.p2 + ((35 + 7 * Real.sqrt 21)/120) • c.p3).hypot)
  have n0 := Vec2.hypot_nonneg c.p0
  have n1 := Vec2.hypot_nonneg c.p1
  have n2 := Vec2.hypot_nonneg c.p2
  have n3 := Vec2.hypot_nonneg c.p3
  linarith
